import Mathlib

/-!
Verification development for the Unzip-Them-All repository.

The Python sources are shallowly embedded as executable Lean definitions:

* `src/core/file_analyzer.py` (`FileAnalyzer`): `identify`, `fix_extension`
  and the magic-number/extension tables become pure functions on byte lists.
* `src/core/extractor.py` (`FileExtractor`): `extract` and
  `_extract_recursive` become state-passing functions over an abstract
  filesystem state `St`.  The external decoder (WinRAR) is modelled by a
  `dec` field on each virtual file: `none` means the decoder reports
  failure, `some out` means it succeeds and produces the tree `out` in the
  temp directory.  `WinRARHelper.extract` itself never raises (all its
  exception paths are caught and turned into a `(False, msg)` return), so a
  boolean/`Option` outcome is a faithful model of the call site.
* `src/gui/worker_thread.py` (`ExtractWorker.run`) becomes `workerRun`.

Machine-level effects (log callbacks, renames, temp-directory creation and
removal, moves into the final output directory) are recorded as structured
events in `St.evs`; each event constructor corresponds to a log line or
filesystem operation of the source and is noted where it is produced.
-/

namespace UnzipSpec

/-- Structured counterpart of one log line / filesystem effect of the source. -/
inductive Ev where
  /-- generic informational log line (`self._log(...)`) -/
  | info (msg : String)
  /-- `temp_dir.mkdir(...)`, extractor.py line 140 -/
  | tempCreate (p : List String)
  /-- `shutil.rmtree(temp_dir, ...)`, extractor.py lines 156-157, 166-167, 251-252 -/
  | tempRemove (p : List String)
  /-- one call of `WinRARHelper.extract` on a file, with its boolean outcome -/
  | decodeTry (name : String) (depth : Nat) (ok : Bool)
  /-- a `_extract_recursive` frame returned normally with this boolean result -/
  | callResult (depth : Nat) (name : String) (ok : Bool)
  /-- `shutil.move` of a regular file to the final output dir, line 247 -/
  | movedFile (dirs : List String) (stem sfx : String)
  /-- collision rename of an incoming file, lines 240-243 -/
  | renamedOnCollision (oldName newName : String)
  /-- the `if source_path.is_dir():` branch of the merge step, line 219 -/
  | dirBranch (name : String)
  /-- `[警告] 达到最大递归深度`, line 127 -/
  | warnDepth (name : String)
  /-- `[错误] 文件不存在`, line 131 -/
  | errMissing (name : String)
  /-- `[警告] 解压后无文件`, line 165 -/
  | warnEmpty (name : String)
  /-- `fix_extension` renamed a file on disk, file_analyzer.py line 185 -/
  | renamedExt (oldName newName : String)
  /-- `正在处理 (idx/total): name`, extractor.py line 84 -/
  | processing (idx total : Nat) (name : String)
  /-- `✓ 成功: name`, extractor.py line 98 -/
  | okFile (name : String)
  /-- `✗ 失败: name`, extractor.py line 100 -/
  | failFile (name : String)
  /-- `✗ 错误: name - e`, extractor.py line 102 (the per-file `except` branch) -/
  | errorFile (name : String) (e : String)
  /-- `finished_signal.emit(success_count)`, worker_thread.py line 137 -/
  | finished (count : Nat)
  /-- `task_status_signal.emit(idx, status)`, worker_thread.py -/
  | taskStatus (idx : Nat) (status : String)
deriving DecidableEq, Repr

/-- Result triple of `FileAnalyzer.identify` (file_analyzer.py lines 51-141):
`(是否为压缩文件, 压缩格式, 理由)`.  The format slot is `Option String`
because the Python code returns `None` there on several paths. -/
structure SniffRes where
  isArchive : Bool
  fmt : Option String
  reason : String
deriving DecidableEq, Repr

/-- `FileAnalyzer.MAGIC_NUMBERS` (file_analyzer.py lines 19-33), as an ordered
association list: Python dicts iterate in insertion order. -/
def MAGIC_NUMBERS : List (List Nat × String × Option String) :=
  [ ([0x50, 0x4B, 0x03, 0x04], "ZIP", some ".zip"),
    ([0x50, 0x4B, 0x05, 0x06], "ZIP", some ".zip"),
    ([0x50, 0x4B, 0x07, 0x08], "ZIP", some ".zip"),
    ([0x52, 0x61, 0x72, 0x21], "RAR", some ".rar"),
    ([0x52, 0x61, 0x72, 0x21, 0x1A, 0x07], "RAR v5", some ".rar"),
    ([0x37, 0x7A, 0xBC, 0xAF, 0x27, 0x1C], "7Z", some ".7z"),
    ([0x1F, 0x8B], "GZIP", some ".gz"),
    ([0x42, 0x5A, 0x68], "BZIP2", some ".bz2"),
    ([0xFD, 0x37, 0x7A, 0x58, 0x5A, 0x00], "XZ", some ".xz"),
    ([0x25, 0x50, 0x44, 0x46], "PDF", some ".pdf"),
    ([0x50, 0x33, 0x52, 0x33], "MP3", some ".mp3"),
    ([0x00, 0x00, 0x00], "MP4/RAR", none) ]

/-- `FileAnalyzer.VALID_ARCHIVE_EXTENSIONS` (file_analyzer.py line 36). -/
def VALID_ARCHIVE_EXTENSIONS : List String :=
  [".zip", ".rar", ".7z", ".gz", ".bz2", ".xz", ".tar"]

/-- `VOLUME_EXTENSIONS` (config/constants.py lines 14-16). -/
def VOLUME_EXTENSIONS : List String :=
  [".001", ".002", ".003", ".004", ".005", ".006", ".007", ".008", ".009"]

/-- `NON_ARCHIVE_EXTENSIONS` (config/constants.py lines 19-28). -/
def NON_ARCHIVE_EXTENSIONS : List (String × String) :=
  [ (".txt", "文本文件"), (".doc", "Word"), (".docx", "Word"),
    (".xls", "Excel"), (".xlsx", "Excel"), (".ppt", "PowerPoint"),
    (".pdf", "PDF"), (".jpg", "JPEG"), (".jpeg", "JPEG"),
    (".png", "PNG"), (".gif", "GIF"), (".bmp", "BMP"),
    (".mp3", "MP3"), (".mp4", "MP4"), (".avi", "AVI"),
    (".mkv", "MKV"), (".flv", "FLV"), (".wmv", "WMV"),
    (".exe", "可执行文件"), (".dll", "动态链接库"),
    (".iso", "ISO 镜像"), (".img", "IMG 镜像") ]

/-- the local `archive_extensions` dict of `identify` (file_analyzer.py
lines 118-122). -/
def archive_extensions : List (String × String) :=
  [ (".zip", "ZIP"), (".rar", "RAR"), (".7z", "7Z"),
    (".tar", "TAR"), (".gz", "GZIP"), (".bz2", "BZIP2"),
    (".xz", "XZ") ]

/-- bytes of `b'\x00\x00\x00\x18ftypmp42'` (file_analyzer.py line 99). -/
def mp42sig : List Nat :=
  [0x00, 0x00, 0x00, 0x18, 0x66, 0x74, 0x79, 0x70, 0x6D, 0x70, 0x34, 0x32]

/-- bytes of `b'\x00\x00\x00\x20ftypisom'` (file_analyzer.py line 100). -/
def isomsig : List Nat :=
  [0x00, 0x00, 0x00, 0x20, 0x66, 0x74, 0x79, 0x70, 0x69, 0x73, 0x6F, 0x6D]

/-- `MAX_RECURSION_DEPTH` (config/constants.py line 41). -/
def MAX_RECURSION_DEPTH : Nat := 10

/-- ASCII lower-casing of one character (what Python's `str.lower` does on
the ASCII extension strings handled here). -/
def lowerChar (c : Char) : Char :=
  if 65 ≤ c.toNat ∧ c.toNat ≤ 90 then Char.ofNat (c.toNat + 32) else c

/-- `str.lower()` on an extension string. -/
def pyLower (s : String) : String := ⟨s.data.map lowerChar⟩

/-- The decimal digit character for `n < 10`. -/
def decChar (n : Nat) : Char := Char.ofNat (48 + n)

/-- Digit list of the decimal rendering of `n`, with explicit fuel. -/
def natStrAux : Nat → Nat → List Char
  | 0, _ => []
  | fl + 1, n =>
    if n < 10 then [decChar n]
    else natStrAux fl (n / 10) ++ [decChar (n % 10)]

/-- Python's `str(n)` for a natural number: its decimal rendering. -/
def natStr (n : Nat) : String := ⟨natStrAux (n + 1) n⟩

/-- The body of the `for magic, ... in MAGIC_NUMBERS.items():` loop of
`identify` (file_analyzer.py lines 94-114) once `header.startswith(magic)`
holds: the returned classification. -/
def entryRes (current_ext : String) (header : List Nat) (magic : List Nat)
    (format_name : String) (ext : Option String) : SniffRes :=
  -- line 98: MP4 disambiguation, only for the b'\x00\x00\x00' entry
  if magic = [0x00, 0x00, 0x00] ∧
      (mp42sig.isPrefixOf header ∨ isomsig.isPrefixOf header) then
    ⟨false, some "MP4", "文件头识别为 MP4 视频文件，不是压缩文件"⟩
  else
    match ext with
    | some e =>
      -- line 104: `if ext and current_ext != ext:`
      if current_ext ≠ e ∧ e ∈ VALID_ARCHIVE_EXTENSIONS then
        ⟨true, some format_name,
          "文件头识别为 " ++ format_name ++ " 格式，但扩展名是 " ++ current_ext⟩
      else if e ∈ VALID_ARCHIVE_EXTENSIONS then
        ⟨true, some format_name, "文件头识别为 " ++ format_name ++ " 格式"⟩
      else
        ⟨false, some format_name,
          "文件头识别为 " ++ format_name ++ " 格式，不是压缩文件"⟩
    | none =>
      -- Python `None in VALID_ARCHIVE_EXTENSIONS` is False, so both `if`
      -- checks at lines 104 and 109 are skipped: line 113 returns.
      ⟨false, some format_name,
        "文件头识别为 " ++ format_name ++ " 格式，不是压缩文件"⟩

/-- The `for magic, (format_name, ext) in MAGIC_NUMBERS.items():` loop of
`identify` (file_analyzer.py lines 92-114).  Returns `some r` when the loop
body executed a `return`, `none` when the loop fell through. -/
def magicScan (current_ext : String) (header : List Nat) :
    List (List Nat × String × Option String) → Option SniffRes
  | [] => none
  | (magic, format_name, ext) :: rest =>
    if magic.isPrefixOf header then
      some (entryRes current_ext header magic format_name ext)
    else magicScan current_ext header rest

/-- `FileAnalyzer.identify` (file_analyzer.py lines 51-141) for a regular
file: `present` models `file_path.exists()`, `content` the file bytes
(`st_size` is their count and the header read takes the first 16), `sfx`
models `file_path.suffix`. -/
def identify (present : Bool) (content : List Nat) (sfx : String) : SniffRes :=
  if present = false then ⟨false, none, "文件不存在"⟩
  else if content.length = 0 then ⟨false, none, "文件大小为 0 字节"⟩
  else if (content.take 16).length < 4 then
    ⟨false, none,
      "文件头长度不足 (" ++ toString (content.take 16).length ++ " 字节)"⟩
  else
    match magicScan (pyLower sfx) (content.take 16) MAGIC_NUMBERS with
    | some r => r
    | none =>
      -- lines 117-141: extension-based fallbacks
      match List.lookup (pyLower sfx) archive_extensions with
      | some fmt =>
        ⟨true, some fmt,
          "扩展名为 " ++ pyLower sfx ++ "，但文件头无法识别（可能是损坏或加密的压缩文件）"⟩
      | none =>
        if pyLower sfx ∈ VOLUME_EXTENSIONS then
          ⟨true, some "分卷压缩", "扩展名为 " ++ pyLower sfx ++ "，可能是分卷压缩文件"⟩
        else
          match List.lookup (pyLower sfx) NON_ARCHIVE_EXTENSIONS with
          | some nm =>
            ⟨false, some nm, "扩展名为 " ++ pyLower sfx ++ "，识别为 " ++ nm⟩
          | none =>
            ⟨false, some "未知格式",
              "无法识别文件格式（扩展名: " ++ pyLower sfx ++ ", 文件大小: "
                ++ toString content.length ++ " 字节）"⟩

/-- A virtual filesystem node.  `vfile` carries the file's name split as
Python's `Path.stem` / `Path.suffix`, its bytes, a `present` flag modelling
`Path.exists()`, and the external decoder's behaviour on it: `dec = none`
means `WinRARHelper.extract` reports failure, `dec = some out` means it
succeeds, and `out` is the `temp_dir.rglob('*')` enumeration of what it
wrote: every produced node (files and directories) paired with its
directory path relative to the temp directory.  `vdir` is a directory in
that enumeration (its contents appear as separate entries with extended
relative paths, exactly as `rglob` lists them). -/
inductive VNode where
  | vfile (stem sfx : String) (content : List Nat) (present : Bool)
      (dec : Option (List (List String × VNode)))
  | vdir (dname : String)

namespace VNode

/-- `Path.name`: stem plus suffix for files, the directory name for dirs. -/
def name : VNode → String
  | .vfile s x _ _ _ => s ++ x
  | .vdir n => n

/-- `Path.stem`. -/
def stem : VNode → String
  | .vfile s _ _ _ _ => s
  | .vdir n => n

/-- `Path.is_file()`. -/
def isFile : VNode → Bool
  | .vfile .. => true
  | .vdir .. => false

/-- `Path.exists()` (directories produced by the decoder exist). -/
def present : VNode → Bool
  | .vfile _ _ _ p _ => p
  | .vdir .. => true

/-- What the external decoder does on this path. -/
def dec : VNode → Option (List (List String × VNode))
  | .vfile _ _ _ _ d => d
  | .vdir .. => none

end VNode

/-- `FileAnalyzer.identify` applied to a path in the temp directory.  On a
directory the `open(file_path, 'rb')` at file_analyzer.py line 83 raises
(`IsADirectoryError` / `PermissionError`), which line 85 catches, returning
the unreadable-header result.  (`identify` is only ever reached for regular
files in the extraction flow, since the enumeration filters on
`is_file()`.) -/
def identifyNode : VNode → SniffRes
  | .vfile _ sfx content present _ => identify present content sfx
  | .vdir _ => ⟨false, none, "无法读取文件头: IsADirectoryError"⟩

/-- The `for magic, (fmt_name, ext) in MAGIC_NUMBERS.items():` loop of
`fix_extension` (file_analyzer.py lines 179-193).  Returns
`some (newSfx, evs)` when a `return` was executed in the loop body
(`newSfx` is the suffix of the returned path) and `none` when the loop fell
through.  `renameOk` models whether the `file_path.rename(new_path)` call
at line 185 succeeds; on failure line 193 returns the original path. -/
def fix_scan (renameOk : Bool) (stem sfx : String) (header : List Nat) :
    List (List Nat × String × Option String) → Option (String × List Ev)
  | [] => none
  | (magic, _fmt_name, ext) :: rest =>
    if magic.isPrefixOf header then
      match ext with
      | some e =>
        if renameOk then
          some (e, [.renamedExt (stem ++ sfx) (stem ++ e)])
        else
          some (sfx, [.info "[警告] 重命名失败"])
      | none =>
        -- line 182 `if ext:` is false: the loop continues with the next magic
        fix_scan renameOk stem sfx header rest
    else fix_scan renameOk stem sfx header rest

/-- `FileAnalyzer.fix_extension` (file_analyzer.py lines 143-203): returns
the possibly-renamed node together with the log events it produced. -/
def fix_extension (renameOk : Bool) (n : VNode) : VNode × List Ev :=
  match n with
  | .vdir .. => (n, [.info "[跳过扩展名修改] 不是压缩文件"])
  | .vfile stem sfx content present d =>
    let r := identify present content sfx
    -- line 162: never rename a file `identify` classified non-archive
    if r.isArchive = false then
      (n, [.info ("[跳过扩展名修改] 不是压缩文件: " ++ stem ++ sfx)])
    -- lines 169-172: extension already a recognized archive extension
    else if pyLower sfx ∈ VALID_ARCHIVE_EXTENSIONS then
      (n, [])
    else
      match fix_scan renameOk stem sfx (content.take 16) MAGIC_NUMBERS with
      | some (newSfx, evs) => (.vfile stem newSfx content present d, evs)
      | none => (n, [.info ("[保持原扩展名] " ++ stem ++ sfx)])

/-- Abstract filesystem-and-log state threaded through the extractor.
Paths are component lists rooted at the task's output directory.
`files` are the regular files in existence outside temp directories
(each as directory path, stem, suffix, content); `fdirs` the directories
created by the extractor; `temps` the currently existing temp directories;
`evs` the event log. -/
structure St where
  files : List (List String × String × String × List Nat)
  fdirs : List (List String)
  temps : List (List String)
  evs : List Ev
deriving DecidableEq, Repr

/-- The empty initial state. -/
def St.empty : St := ⟨[], [], [], []⟩

/-- Append one event to the log. -/
def push (st : St) (e : Ev) : St := { st with evs := st.evs ++ [e] }

/-- Append several events to the log. -/
def pushL (st : St) (l : List Ev) : St := { st with evs := st.evs ++ l }

/-- `Path.exists()` for a file path `dirs/(stem ++ sfx)`. -/
def pathExistsF (st : St) (dirs : List String) (stem sfx : String) : Bool :=
  st.files.any (fun e => e.1 == dirs && e.2.1 == stem && e.2.2.1 == sfx) ||
    st.fdirs.contains (dirs ++ [stem ++ sfx]) ||
    st.temps.contains (dirs ++ [stem ++ sfx])

/-- `Path.exists()` for a directory path. -/
def pathExistsD (st : St) (dirs : List String) : Bool :=
  st.fdirs.contains dirs || st.temps.contains dirs ||
    st.files.any (fun e => e.1 == dirs)

/-- Record a directory as existing (idempotent). -/
def insDir (st : St) (d : List String) : St :=
  if st.fdirs.contains d then st else { st with fdirs := st.fdirs ++ [d] }

/-- `dest_parent.mkdir(parents=True, exist_ok=True)` (extractor.py line
216): create `fin ++ rel` together with all intermediate directories below
`fin`. -/
def mkChain (st : St) (fin rel : List String) : St :=
  (List.range rel.length).foldl (fun s i => insDir s (fin ++ rel.take (i + 1))) st

/-- The `while ... .exists(): counter += 1` search (extractor.py lines
239-241): starting at `k`, return the first counter whose candidate name
`stem_counter ++ sfx` does not exist, with explicit fuel (the loop visits
at most one more name than there are filesystem entries). -/
def freeFrom (st : St) (dirs : List String) (stem sfx : String) :
    Nat → Nat → Nat
  | 0, k => k
  | b + 1, k =>
    if pathExistsF st dirs (stem ++ "_" ++ natStr k) sfx then
      freeFrom st dirs stem sfx b (k + 1)
    else k

/-- Fuel that always suffices for `freeFrom`: one more than the number of
existing filesystem entries. -/
def stBound (st : St) : Nat :=
  st.files.length + st.fdirs.length + st.temps.length + 1

/-- `shutil.rmtree(temp_dir, ignore_errors=True)` guarded by
`temp_dir.exists()` (extractor.py lines 251-252 and the failure-path
copies). -/
def tempRm (st : St) (p : List String) : St :=
  if st.temps.contains p then
    { st with temps := st.temps.erase p, evs := st.evs ++ [.tempRemove p] }
  else st

/-- `temp_dir.mkdir(parents=True, exist_ok=True)` (extractor.py line 140). -/
def tempMk (st : St) (p : List String) : St :=
  { st with
    temps := if st.temps.contains p then st.temps else st.temps ++ [p],
    evs := st.evs ++ [.tempCreate p] }

/-- Environment of externally-determined outcomes: whether
`file_path.rename` inside `fix_extension` succeeds, whether a given
`shutil.move` to a destination raises an `OSError`, and the value of the
`should_stop` callback. -/
structure Env where
  renameOk : Bool
  moveRaises : List String → String → String → Bool
  shouldStop : Bool

/-- The classification loop over the extracted entries (extractor.py lines
171-190): returns the archive children (after `fix_extension`), the
non-archive children, and the state with the log lines appended. -/
def classifyPhase (renameOk : Bool) :
    List (List String × VNode) → St →
      List (List String × VNode) × List (List String × VNode) × St
  | [], st => ([], [], st)
  | (d, n) :: rest, st =>
    let r := identifyNode n
    if r.isArchive then
      let fx := fix_extension renameOk n
      let st := pushL st (fx.2 ++ [.info ("✓ 压缩文件: " ++ fx.1.name)])
      let (archs, nons, st') := classifyPhase renameOk rest st
      ((d, fx.1) :: archs, nons, st')
    else
      let st := push st (.info ("✗ 非压缩文件: " ++ n.name))
      let (archs, nons, st') := classifyPhase renameOk rest st
      (archs, (d, n) :: nons, st')

/-- One iteration of the merge loop (extractor.py lines 208-248) for the
entry `n` found at `relDirs` relative to the temp directory.  Returns
`(some e, st)` when `shutil.move` raised the exception `e` (there is no
surrounding `try`, so it propagates), else `(none, st)`. -/
def moveOne (env : Env) (fin : List String) (relDirs : List String)
    (n : VNode) (st : St) : Option String × St :=
  let destDirs := fin ++ relDirs
  -- lines 214-216: `if dest_parent != final_output_dir: mkdir(parents=True)`
  let st := if relDirs = [] then st else mkChain st fin relDirs
  match n with
  | .vdir dname =>
    -- lines 219-233: directory branch (unreachable from `_extract_recursive`
    -- because the enumeration keeps only `is_file()` entries)
    let st := push st (.dirBranch dname)
    if pathExistsD st (destDirs ++ [dname]) then
      let k := freeFrom st destDirs dname "" (stBound st) 1
      (none, insDir st (destDirs ++ [dname ++ "_" ++ natStr k]))
    else (none, insDir st (destDirs ++ [dname]))
  | .vfile stem sfx content present _ =>
    -- lines 236-243: file collision renaming
    let (stem', st) :=
      if pathExistsF st destDirs stem sfx then
        let k := freeFrom st destDirs stem sfx (stBound st) 1
        (stem ++ "_" ++ natStr k,
          push st (.renamedOnCollision (stem ++ sfx)
            (stem ++ "_" ++ natStr k ++ sfx)))
      else (stem, st)
    -- line 246: `if source_path.exists():`
    if present then
      if env.moveRaises destDirs stem' sfx then
        (some "OSError: shutil.move failed", st)
      else
        (none,
          { push st (.movedFile destDirs stem' sfx) with
            files := st.files ++ [(destDirs, stem', sfx, content)] })
    else (none, st)

/-- The `for source_path in non_archive_files:` loop (extractor.py lines
204-248); an exception from `shutil.move` aborts the loop and propagates. -/
def movePhase (env : Env) (fin : List String) :
    List (List String × VNode) → St → Option String × St
  | [], st => (none, st)
  | (relDirs, n) :: rest, st =>
    match moveOne env fin relDirs n st with
    | (some e, st') => (some e, st')
    | (none, st') => movePhase env fin rest st'

/-- Outcome of one `_extract_recursive` frame: a normal boolean return, or
an uncaught Python exception unwinding through the frame. -/
inductive ExRes where
  | ok (b : Bool)
  | raised (e : String)
deriving DecidableEq, Repr

/-- The `for archive_file in archive_files:` loop (extractor.py lines
198-201), abstracted over the recursive call `recF`.  The boolean result of
each nested call is discarded (line 199 ignores the return value); an
exception unwinds through the loop. -/
def processArchivesWith
    (recF : VNode → List String → Option (List String) → St → ExRes × St) :
    List (List String × VNode) → List String → Option (List String) → St →
      Option String × St
  | [], _, _, st => (none, st)
  | (_, a) :: rest, inner, fo, st =>
    match recF a inner fo st with
    | (.raised e, st') => (some e, st')
    | (.ok _, st') => processArchivesWith recF rest inner fo st'

/-- Steps 7-11 of `_extract_recursive` (extractor.py lines 171-254), run
once the decoder succeeded with a non-empty enumeration `extracted`:
classify the entries, recurse via `recF` into the archive children, merge
the non-archive children, remove the temp directory and return success.
Abstracted over the recursive call `recF` exactly like
`processArchivesWith`. -/
def erMerge (env : Env)
    (recF : VNode → List String → Option (List String) → St → ExRes × St)
    (depth : Nat) (nodeName correctedStem : String)
    (extracted : List (List String × VNode))
    (output_dir fin temp_dir : List String) (st : St) : ExRes × St :=
  -- lines 171-190: classify every extracted file
  match classifyPhase env.renameOk extracted st with
  | (archives, nonArchives, st1) =>
    -- lines 193-201: recurse into nested archives
    let paRes :=
      if archives.isEmpty then (none, st1)
      else
        let inner_output := output_dir ++ [correctedStem]
        let st2 := mkChain st1 [] inner_output
        processArchivesWith recF archives inner_output (some fin) st2
    match paRes with
    | (some e, st') => (.raised e, st')
    | (none, st') =>
      -- lines 204-248: merge non-archives into the final directory
      match movePhase env fin nonArchives st' with
      | (some e, st'') => (.raised e, st'')
      | (none, st'') =>
        -- lines 251-252: remove the temp directory
        (.ok true, push (tempRm st'' temp_dir) (.callResult depth nodeName true))

/-- `FileExtractor._extract_recursive` (extractor.py lines 107-254).
`fuel` is an artefact of the embedding: the Python recursion terminates
because every call deeper than `MAX_RECURSION_DEPTH` returns at the depth
guard, so any fuel of at least `MAX_RECURSION_DEPTH + 2 - depth` gives the
exact semantics (the `raised "fuel exhausted"` branch is then
unreachable). -/
def extract_recursive (env : Env) :
    Nat → Nat → VNode → List String → Option (List String) → St → ExRes × St
  | 0, _, _, _, _, st => (.raised "fuel exhausted", st)
  | fuel + 1, depth, node, output_dir, finOpt, st =>
    -- lines 126-128: depth guard
    if MAX_RECURSION_DEPTH < depth then
      (.ok false, pushL st [.warnDepth node.name, .callResult depth node.name false])
    -- lines 130-132: missing file guard
    else if node.present = false then
      (.ok false, pushL st [.errMissing node.name, .callResult depth node.name false])
    else
      -- lines 135-136: pin final_output_dir on the first frame
      let fin := finOpt.getD output_dir
      -- lines 139-140: create the per-frame temp directory
      let temp_dir := output_dir ++ ["temp_extract_" ++ toString depth]
      let st := tempMk st temp_dir
      -- line 143: fix the input file's extension
      let fx := fix_extension env.renameOk node
      let corrected := fx.1
      let st := pushL st fx.2
      -- lines 146-158: invoke the external decoder
      match corrected.dec with
      | none =>
        let st := push st (.decodeTry corrected.name depth false)
        let st := tempRm st temp_dir
        (.ok false, push st (.callResult depth node.name false))
      | some out =>
        let st := push st (.decodeTry corrected.name depth true)
        -- lines 161-162: enumerate (`out` is the rglob enumeration of the
        -- decoder output), keeping only regular files
        let extracted := out.filter (fun p => p.2.isFile)
        -- lines 164-168: decoder produced nothing
        if extracted.isEmpty then
          let st := push st (.warnEmpty corrected.name)
          let st := tempRm st temp_dir
          (.ok false, push st (.callResult depth node.name false))
        else
          -- lines 171-254: classification, nested recursion, merge, cleanup
          erMerge env (extract_recursive env fuel (depth + 1)) depth
            node.name corrected.stem extracted output_dir fin temp_dir st

/-- One top-level input file of `FileExtractor.extract`: the node plus its
parent directory (used when `extract_to_source` is set). -/
structure TopFile where
  parent : List String
  node : VNode

/-- Fuel that makes `extract_recursive` from depth 0 exact. -/
def topFuel : Nat := MAX_RECURSION_DEPTH + 2

/-- The `for idx, file_path in enumerate(files):` loop of
`FileExtractor.extract` (extractor.py lines 80-102), returning the success
count and the final state. -/
def extractLoop (env : Env) (output_dir : List String)
    (extract_to_source : Bool) (total : Nat) :
    List TopFile → Nat → Nat → St → Nat × St
  | [], _, cnt, st => (cnt, st)
  | f :: rest, idx, cnt, st =>
    -- lines 81-82: cooperative stop check
    if env.shouldStop then (cnt, st)
    else
      let st := push st (.processing (idx + 1) total f.node.name)
      -- lines 88-93: choose the effective output dir
      let tgt := if extract_to_source then f.parent else output_dir
      -- lines 96-102: recurse; per-file exceptions are caught and logged
      match extract_recursive env topFuel 0 f.node tgt none st with
      | (.ok true, st') =>
        extractLoop env output_dir extract_to_source total rest (idx + 1)
          (cnt + 1) (push st' (.okFile f.node.name))
      | (.ok false, st') =>
        extractLoop env output_dir extract_to_source total rest (idx + 1)
          cnt (push st' (.failFile f.node.name))
      | (.raised e, st') =>
        extractLoop env output_dir extract_to_source total rest (idx + 1)
          cnt (push st' (.errorFile f.node.name e))

/-- `FileExtractor.extract` (extractor.py lines 55-105). -/
def extract (env : Env) (files : List TopFile) (output_dir : List String)
    (extract_to_source : Bool) (st : St) : Nat × St :=
  extractLoop env output_dir extract_to_source files.length files 0 0 st

/-! ## Worker thread (`src/gui/worker_thread.py`) -/

/-- The methods the `FileExtractor` class actually defines
(extractor.py lines 14-259).  Note there is no `_extract_batch`. -/
def fileExtractorMethods : List String :=
  ["__init__", "_log", "_should_stop", "_progress", "extract",
    "_extract_recursive", "stop"]

/-- Python attribute lookup on a `FileExtractor` instance: raises
`AttributeError` when the class defines no such method. -/
def getattrFE (attr : String) : Except String Unit :=
  if fileExtractorMethods.contains attr then .ok ()
  else .error ("AttributeError: 'FileExtractor' object has no attribute '"
    ++ attr ++ "'")

/-- One entry of the worker's task list (worker_thread.py lines 32, 70-72):
files, optional output directory, optional password. -/
structure PyTask where
  files : List TopFile
  output_dir : Option (List String)
  password : Option String

/-- The per-file inner loop of the `extract_to_source` branch of
`ExtractWorker.run` (worker_thread.py lines 83-108); returns the updated
`current_file` counter, success count and state. -/
def workerFiles (env : Env) (taskIdx total : Nat) :
    List TopFile → Nat → Nat → St → Nat × Nat × St
  | [], cur, succ, st => (cur, succ, st)
  | f :: rest, cur, succ, st =>
    if env.shouldStop then (cur, succ, st)
    else
      let st := push st (.processing (cur + 1) total f.node.name)
      match extract_recursive env topFuel 0 f.node f.parent none st with
      | (.ok true, st') =>
        workerFiles env taskIdx total rest (cur + 1) (succ + 1)
          (pushL st' [.okFile f.node.name, .taskStatus taskIdx "success"])
      | (.ok false, st') =>
        workerFiles env taskIdx total rest (cur + 1) succ
          (pushL st' [.failFile f.node.name, .taskStatus taskIdx "failed"])
      | (.raised e, st') =>
        workerFiles env taskIdx total rest (cur + 1) succ
          (pushL st' [.errorFile f.node.name e, .taskStatus taskIdx "error"])

/-- The `for task_idx, task in enumerate(self.tasks):` loop of
`ExtractWorker.run` (worker_thread.py lines 66-133).  Returns
`(some e, ...)` when an exception escapes the loop (nothing in `run`
catches it). -/
def workerTasks (env : Env) (ets : Bool) (total : Nat) :
    List PyTask → Nat → Nat → Nat → St → Option String × Nat × St
  | [], _, _, succ, st => (none, succ, st)
  | t :: rest, idx, cur, succ, st =>
    if env.shouldStop then (none, succ, st)
    else if ets then
      let (cur', succ', st') := workerFiles env idx total t.files cur succ st
      workerTasks env ets total rest (idx + 1) cur' succ' st'
    else
      match t.output_dir with
      | none => workerTasks env ets total rest (idx + 1) cur succ st
      | some _ =>
        -- worker_thread.py line 116 evaluates
        -- `self._extractor._extract_batch`; `FileExtractor` declares no such
        -- method (see `fileExtractorMethods`), so the attribute lookup
        -- raises `AttributeError` and the exception unwinds out of `run`.
        match getattrFE "_extract_batch" with
        | .error e => (some e, succ, st)
        | .ok _ =>
          -- unreachable: the lookup above always fails; the source contains
          -- no `_extract_batch` body that could be modelled here.
          workerTasks env ets total rest (idx + 1) (cur + t.files.length)
            succ st

/-- `ExtractWorker.run` (worker_thread.py lines 45-137): on normal
completion it emits the final success-count event (line 137); an uncaught
exception is returned as `some e` and the event is never emitted. -/
def workerRun (env : Env) (tasks : List PyTask) (ets : Bool) (st : St) :
    Option String × St :=
  let total := (tasks.map (fun t => t.files.length)).sum
  match workerTasks env ets total tasks 0 0 0 st with
  | (some e, _, st') => (some e, st')
  | (none, succ, st') => (none, push st' (.finished succ))

/-! ## Fixtures: the concrete inputs used by the claim theorems -/

/-- Environment where every rename and move succeeds and nothing stops. -/
def envOK : Env := ⟨true, fun _ _ _ => false, false⟩

/-- Environment where every `shutil.move` raises `OSError`. -/
def envRaise : Env := ⟨true, fun _ _ _ => true, false⟩

/-- Bytes beginning with the ZIP local-file-header magic. -/
def zipC : List Nat := [0x50, 0x4B, 0x03, 0x04, 0, 0]

/-- A plain text file (classified non-archive by content and extension). -/
def plainLeaf : VNode := .vfile "data" ".txt" [0x61, 0x62, 0x63, 0x64] true none

/-- The synthetic archive-of-archive chain: `chainNode k` is an archive
whose decoder output is the single archive `chainNode (k-1)`;
`chainNode 0` decodes to one plain file.  Extracting `chainNode 11`
processes the archive at nesting depth `d` in the recursion frame of
depth `d`. -/
def chainNode : Nat → VNode
  | 0 => .vfile "nest0" ".zip" zipC true (some [([], plainLeaf)])
  | n + 1 => .vfile ("nest" ++ toString (n + 1)) ".zip" zipC true
      (some [([], chainNode n)])

/-- An outer archive with two sibling branches: a chain that exceeds the
depth limit, and an ordinary text file. -/
def sibOuter : VNode :=
  .vfile "outer" ".zip" zipC true
    (some [([], chainNode 10), ([], .vfile "keep" ".txt" [1, 2, 3, 4, 5] true none)])

/-- An archive containing a single plain file (used for the temp-leak
counterexample). -/
def arch1 : VNode := .vfile "a" ".zip" zipC true (some [([], plainLeaf)])

/-- A nested archive that decodes successfully to one text file. -/
def goodNest : VNode :=
  .vfile "good" ".zip" zipC true
    (some [([], .vfile "f1" ".txt" [10, 11, 12, 13] true none)])

/-- A nested archive on which the decoder fails (e.g. wrong password). -/
def badNest : VNode := .vfile "bad" ".zip" zipC true none

/-- Outer archive containing one decodable and one failing nested archive. -/
def outer6 : VNode :=
  .vfile "outer6" ".zip" zipC true (some [([], goodNest), ([], badNest)])

/-- First source archive containing `report.txt`. -/
def reportA1 : VNode :=
  .vfile "a1" ".zip" zipC true
    (some [([], .vfile "report" ".txt" [1, 1, 1, 1] true none)])

/-- Second source archive containing a different `report.txt`. -/
def reportA2 : VNode :=
  .vfile "a2" ".zip" zipC true
    (some [([], .vfile "report" ".txt" [2, 2, 2, 2] true none)])

/-- Environment in which only the move of a file with stem "boom" raises. -/
def envBoom : Env := ⟨true, fun _ s _ => s == "boom", false⟩

/-- An archive whose single member's move raises under `envBoom`. -/
def braiser : VNode :=
  .vfile "b" ".zip" zipC true
    (some [([], .vfile "boom" ".txt" [1, 2, 3, 4] true none)])

/-- The per-frame boolean results, in return order, read off the event log. -/
def callResults (evs : List Ev) : List (Nat × Bool) :=
  evs.filterMap (fun e => match e with
    | .callResult d _ b => some (d, b)
    | _ => none)

/-- Does the event rename a file on disk (`fix_extension`'s rename)? -/
def isRenameEv : Ev → Bool
  | .renamedExt _ _ => true
  | _ => false

/-- Is the event a `finished_signal` emission? -/
def isFinishedEv : Ev → Bool
  | .finished _ => true
  | _ => false

/-- Is the event a temp-directory removal? -/
def isTempRemoveEv : Ev → Bool
  | .tempRemove _ => true
  | _ => false

/-- Is the event the directory branch of the merge step? -/
def isDirBranchEv : Ev → Bool
  | .dirBranch _ => true
  | _ => false

/-- Does the event describe decoder work at a depth beyond the maximum? -/
def isDeepWorkEv : Ev → Bool
  | .decodeTry _ d _ => MAX_RECURSION_DEPTH < d
  | _ => false

/-- Is the event a `✓ 成功` per-file success line (emitted only by the
batch loops, once per successful top-level file)? -/
def isOkFileEv : Ev → Bool
  | .okFile _ => true
  | _ => false

/-- An environment in which no `shutil.move` raises. -/
def noMoveEnv (env : Env) : Prop :=
  ∀ (dd : List String) (s x : String), env.moveRaises dd s x = false

/-- Events a `_extract_recursive` frame may emit: anything except the
per-file `✓ 成功` lines of the batch loops and the directory branch of the
merge step. -/
def erP (e : Ev) : Bool := !(isOkFileEv e) && !(isDirBranchEv e)

/-- `st'` extends `st` by appending only events satisfying `P`. -/
def evExt (st st' : St) (P : Ev → Bool) : Prop :=
  ∃ d, st'.evs = st.evs ++ d ∧ d.all P = true

/-- Number of `✓ 成功` per-file success lines in an event list. -/
def countOk (l : List Ev) : Nat := (l.filter isOkFileEv).length

/-- The archive rows of the sniffer's magic table, paired with the format
name `identify` actually reports for them (the first matching entry in
table order: a RAR v5 signature is reported as "RAR") and the expected
extension. -/
def c4rows : List (List Nat × String × String) :=
  [ ([0x50, 0x4B, 0x03, 0x04], "ZIP", ".zip"),
    ([0x50, 0x4B, 0x05, 0x06], "ZIP", ".zip"),
    ([0x50, 0x4B, 0x07, 0x08], "ZIP", ".zip"),
    ([0x52, 0x61, 0x72, 0x21], "RAR", ".rar"),
    ([0x52, 0x61, 0x72, 0x21, 0x1A, 0x07], "RAR", ".rar"),
    ([0x37, 0x7A, 0xBC, 0xAF, 0x27, 0x1C], "7Z", ".7z"),
    ([0x1F, 0x8B], "GZIP", ".gz"),
    ([0x42, 0x5A, 0x68], "BZIP2", ".bz2"),
    ([0xFD, 0x37, 0x7A, 0x58, 0x5A, 0x00], "XZ", ".xz") ]

/-- Decimal value of a digit character. -/
def decVal (c : Char) : Nat := c.toNat - 48

/-- Value of a decimal digit string. -/
def digitsVal (l : List Char) : Nat := l.foldl (fun a c => 10 * a + decVal c) 0

/-- Every path that exists on the abstract filesystem. -/
def allPaths (st : St) : List (List String) :=
  st.files.map (fun e => e.1 ++ [e.2.1 ++ e.2.2.1]) ++ st.fdirs ++ st.temps

/-! ## General lemmas about the embedded definitions -/

theorem isPrefixOf_trans {l₁ l₂ l₃ : List Nat} (h₁ : l₁.isPrefixOf l₂ = true)
    (h₂ : l₂.isPrefixOf l₃ = true) : l₁.isPrefixOf l₃ = true := by
  induction l₁ generalizing l₂ l₃ with
  | nil => simp [List.isPrefixOf]
  | cons a as ih =>
    cases l₂ with
    | nil => simp [List.isPrefixOf] at h₁
    | cons b bs =>
      cases l₃ with
      | nil => simp [List.isPrefixOf] at h₂
      | cons c cs =>
        simp only [List.isPrefixOf, Bool.and_eq_true, beq_iff_eq] at h₁ h₂ ⊢
        exact ⟨h₁.1.trans h₂.1, ih h₁.2 h₂.2⟩

theorem lookup_snd {α β : Type} [BEq α] {l : List (α × β)} {k : α} {v : β}
    (h : List.lookup k l = some v) : v ∈ l.map Prod.snd := by
  induction l with
  | nil => simp [List.lookup] at h
  | cons p rest ih =>
    rw [List.lookup] at h
    by_cases hk : (k == p.1) = true
    · simp only [hk, cond_true] at h
      simp [← Option.some_inj.mp h]
    · simp only [Bool.not_eq_true] at hk
      simp only [hk, cond_false] at h
      simp [ih h]

theorem entryRes_fmt (e : String) (hd m : List Nat) (f : String)
    (x : Option String) :
    (entryRes e hd m f x).fmt = some "MP4" ∨
      (entryRes e hd m f x).fmt = some f := by
  unfold entryRes
  split
  · left; rfl
  · cases x with
    | none => right; rfl
    | some e' =>
      dsimp only
      by_cases h1 : e ≠ e' ∧ e' ∈ VALID_ARCHIVE_EXTENSIONS
      · rw [if_pos h1]; right; rfl
      · rw [if_neg h1]
        by_cases h2 : e' ∈ VALID_ARCHIVE_EXTENSIONS
        · rw [if_pos h2]; right; rfl
        · rw [if_neg h2]; right; rfl

theorem magicScan_fmt_src {tbl : List (List Nat × String × Option String)}
    {e : String} {hd : List Nat} {r : SniffRes}
    (h : magicScan e hd tbl = some r) :
    r.fmt = some "MP4" ∨
      ∃ p, p ∈ tbl ∧ p.1.isPrefixOf hd = true ∧ r.fmt = some p.2.1 := by
  induction tbl with
  | nil => simp [magicScan] at h
  | cons q rest ih =>
    obtain ⟨m, f, x⟩ := q
    rw [magicScan] at h
    by_cases hp : m.isPrefixOf hd = true
    · rw [if_pos hp] at h
      obtain rfl : entryRes e hd m f x = r := Option.some_inj.mp h
      rcases entryRes_fmt e hd m f x with h' | h'
      · exact Or.inl h'
      · exact Or.inr ⟨(m, f, x), List.mem_cons_self _ _, hp, h'⟩
    · rw [if_neg hp] at h
      rcases ih h with h' | ⟨p, hmem, hpp, hf⟩
      · exact Or.inl h'
      · exact Or.inr ⟨p, List.mem_cons_of_mem _ hmem, hpp, hf⟩

theorem entryRes_fmt_ne {m : List Nat} (e : String) (hd : List Nat)
    (f : String) (x : Option String) (hm : m ≠ [0x00, 0x00, 0x00]) :
    (entryRes e hd m f x).fmt = some f := by
  unfold entryRes
  rw [if_neg (fun hc => hm hc.1)]
  cases x with
  | none => rfl
  | some e' =>
    dsimp only
    by_cases h1 : e ≠ e' ∧ e' ∈ VALID_ARCHIVE_EXTENSIONS
    · rw [if_pos h1]
    · rw [if_neg h1]
      by_cases h2 : e' ∈ VALID_ARCHIVE_EXTENSIONS
      · rw [if_pos h2]
      · rw [if_neg h2]

theorem entryRes_mismatch {m : List Nat} (e : String) (hd : List Nat)
    (f e' : String) (hm : m ≠ [0x00, 0x00, 0x00]) (hne : e ≠ e')
    (hv : e' ∈ VALID_ARCHIVE_EXTENSIONS) :
    entryRes e hd m f (some e') =
      ⟨true, some f, "文件头识别为 " ++ f ++ " 格式，但扩展名是 " ++ e⟩ := by
  unfold entryRes
  rw [if_neg (fun hc => hm hc.1)]
  dsimp only
  rw [if_pos ⟨hne, hv⟩]

/-- When the 4-byte RAR signature is a prefix of the header, the magic scan
returns at one of the first four table entries, so the format it names is
ZIP or RAR — never "RAR v5". -/
theorem magicScan_rar4_stop (e : String) (hd : List Nat)
    (h : ([0x52, 0x61, 0x72, 0x21] : List Nat).isPrefixOf hd = true) :
    ∃ r, magicScan e hd MAGIC_NUMBERS = some r ∧
      (r.fmt = some "ZIP" ∨ r.fmt = some "RAR") := by
  unfold MAGIC_NUMBERS
  rw [magicScan]
  by_cases z1 : ([0x50, 0x4B, 0x03, 0x04] : List Nat).isPrefixOf hd = true
  · rw [if_pos z1]
    exact ⟨_, rfl, Or.inl (entryRes_fmt_ne e hd _ _ (by decide))⟩
  · rw [if_neg z1, magicScan]
    by_cases z2 : ([0x50, 0x4B, 0x05, 0x06] : List Nat).isPrefixOf hd = true
    · rw [if_pos z2]
      exact ⟨_, rfl, Or.inl (entryRes_fmt_ne e hd _ _ (by decide))⟩
    · rw [if_neg z2, magicScan]
      by_cases z3 : ([0x50, 0x4B, 0x07, 0x08] : List Nat).isPrefixOf hd = true
      · rw [if_pos z3]
        exact ⟨_, rfl, Or.inl (entryRes_fmt_ne e hd _ _ (by decide))⟩
      · rw [if_neg z3, magicScan, if_pos h]
        exact ⟨_, rfl, Or.inr (entryRes_fmt_ne e hd _ _ (by decide))⟩

/-- Reduction of `identify` to a successful magic scan. -/
theorem identify_of_scan {c : List Nat} {s : String} {r : SniffRes}
    (h0 : ¬c.length = 0) (h4 : ¬(c.take 16).length < 4)
    (hm : magicScan (pyLower s) (c.take 16) MAGIC_NUMBERS = some r) :
    identify true c s = r := by
  unfold identify
  rw [if_neg (by simp), if_neg h0, if_neg h4, hm]

/-- C9: `identify` never returns the format name "RAR v5": because the
4-byte RAR signature prefix is checked before the 6-byte RAR v5 signature
in the magic-number table's iteration order, every file bearing the RAR v5
signature matches the shorter prefix first and is reported as "RAR", still
with `is_archive = true`. -/
theorem claim_C9 :
    (∀ (p : Bool) (c : List Nat) (s : String),
      (identify p c s).fmt ≠ some "RAR v5") ∧
    (∀ (t : List Nat) (s : String),
      (identify true ([0x52, 0x61, 0x72, 0x21, 0x1A, 0x07] ++ t) s).isArchive
          = true ∧
        (identify true ([0x52, 0x61, 0x72, 0x21, 0x1A, 0x07] ++ t) s).fmt
          = some "RAR") := by
  constructor
  · intro p c s
    unfold identify
    split
    · simp
    split
    · simp
    split
    · simp
    cases hscan : magicScan (pyLower s) (c.take 16) MAGIC_NUMBERS with
    | some r =>
      dsimp only
      intro hr5
      rcases magicScan_fmt_src hscan with hmp4 | ⟨q, hqmem, hqpre, hqfmt⟩
      · rw [hmp4] at hr5
        exact absurd (Option.some_inj.mp hr5) (by decide)
      · have hq5 : q.2.1 = "RAR v5" :=
          Option.some_inj.mp ((hqfmt.symm.trans hr5))
        simp only [MAGIC_NUMBERS, List.mem_cons, List.not_mem_nil, or_false]
          at hqmem
        rcases hqmem with rfl | rfl | rfl | rfl | rfl | rfl | rfl | rfl | rfl
          | rfl | rfl | rfl <;> try exact absurd hq5 (by decide)
        -- the "RAR v5" row: its signature extends the 4-byte RAR signature,
        -- so the scan would already have stopped at or before that row
        have h4 : ([0x52, 0x61, 0x72, 0x21] : List Nat).isPrefixOf (c.take 16)
            = true := isPrefixOf_trans (by decide) hqpre
        obtain ⟨r', hscan', hfmt'⟩ := magicScan_rar4_stop (pyLower s) (c.take 16) h4
        obtain rfl : r = r' := Option.some_inj.mp (hscan.symm.trans hscan')
        rcases hfmt' with h' | h' <;>
          exact absurd (Option.some_inj.mp (h'.symm.trans hr5)) (by decide)
    | none =>
      dsimp only
      cases hlk : List.lookup (pyLower s) archive_extensions with
      | some fmt' =>
        dsimp only
        have hmem := lookup_snd hlk
        intro hc
        obtain rfl : fmt' = "RAR v5" := Option.some_inj.mp hc
        exact absurd hmem (by decide)
      | none =>
        dsimp only
        split
        · simp
        cases hnk : List.lookup (pyLower s) NON_ARCHIVE_EXTENSIONS with
        | some nm =>
          dsimp only
          have hmem := lookup_snd hnk
          intro hc
          obtain rfl : nm = "RAR v5" := Option.some_inj.mp hc
          exact absurd hmem (by decide)
        | none => simp
  · intro t s
    have h0 : ¬(([0x52, 0x61, 0x72, 0x21, 0x1A, 0x07] ++ t :
        List Nat)).length = 0 := by simp
    have h4 : ¬((([0x52, 0x61, 0x72, 0x21, 0x1A, 0x07] ++ t :
        List Nat)).take 16).length < 4 := by
      simp [List.length_take, List.length_append]
    have htake : (([0x52, 0x61, 0x72, 0x21, 0x1A, 0x07] ++ t :
        List Nat)).take 16 = [0x52, 0x61, 0x72, 0x21, 0x1A, 0x07] ++ t.take 10 := by
      rw [List.take_append_eq_append_take]
      congr 1
    have hscan : magicScan (pyLower s)
        (([0x52, 0x61, 0x72, 0x21, 0x1A, 0x07] : List Nat) ++ t.take 10)
        MAGIC_NUMBERS =
        some (entryRes (pyLower s)
          (([0x52, 0x61, 0x72, 0x21, 0x1A, 0x07] : List Nat) ++ t.take 10)
          [0x52, 0x61, 0x72, 0x21] "RAR" (some ".rar")) := by
      simp [MAGIC_NUMBERS, magicScan, List.isPrefixOf, List.cons_append]
    have hid := identify_of_scan h0 h4 (by rw [htake]; exact hscan)
    rw [hid]
    unfold entryRes
    rw [if_neg (by simp)]
    dsimp only
    by_cases h1 : pyLower s ≠ ".rar" ∧ ".rar" ∈ VALID_ARCHIVE_EXTENSIONS
    · rw [if_pos h1]; exact ⟨rfl, rfl⟩
    · rw [if_neg h1, if_pos (by decide)]; exact ⟨rfl, rfl⟩

/-- C9 witness: a concrete RAR v5 payload with a mismatched extension is
classified as an archive and named "RAR". -/
theorem claim_C9_witness :
    (identify true ([0x52, 0x61, 0x72, 0x21, 0x1A, 0x07] ++ [0x00])
        ".txt").isArchive = true ∧
      (identify true ([0x52, 0x61, 0x72, 0x21, 0x1A, 0x07] ++ [0x00])
        ".txt").fmt = some "RAR" ∧
      (identify true ([0x52, 0x61, 0x72, 0x21, 0x1A, 0x07] ++ [0x00])
        ".txt").fmt ≠ some "RAR v5" :=
  ⟨(claim_C9.2 [0x00] ".txt").1, (claim_C9.2 [0x00] ".txt").2,
    claim_C9.1 true _ ".txt"⟩

/-- C4 counterexample: the claim fails as stated.  A two-byte file whose
header is exactly the GZIP signature (which is shorter than 4 bytes) with a
mismatched extension is classified `is_archive = false` by the
header-length guard; and a file bearing the RAR v5 signature is reported
with format "RAR", not the table's "RAR v5" name. -/
theorem claim_C4_counterexample :
    (identify true [0x1F, 0x8B] ".txt").isArchive = false ∧
      (identify true [0x1F, 0x8B] ".txt").reason = "文件头长度不足 (2 字节)" ∧
      (identify true [0x52, 0x61, 0x72, 0x21, 0x1A, 0x07] ".txt").fmt
          = some "RAR" ∧
      some "RAR" ≠ some "RAR v5" := by
  refine ⟨by decide, by decide, by decide, by decide⟩

/-- C4 (amended): for every supported archive magic number in the sniffer's
table, `identify` applied to a file of at least 4 bytes whose header starts
with that signature but whose (lower-cased) extension differs from the
expected one returns `is_archive = true`, with the extension mismatch
flagged in the reason and the format named being that of the first
signature in table order that matches (so RAR v5 files are named "RAR"). -/
theorem claim_C4 (sig : List Nat) (fmt ext : String)
    (hrow : (sig, fmt, ext) ∈ c4rows) (t : List Nat) (s : String)
    (hlen : 4 ≤ (sig ++ t).length) (hext : pyLower s ≠ ext) :
    identify true (sig ++ t) s =
      ⟨true, some fmt,
        "文件头识别为 " ++ fmt ++ " 格式，但扩展名是 " ++ pyLower s⟩ := by
  simp only [c4rows, List.mem_cons, List.not_mem_nil, or_false,
    Prod.mk.injEq] at hrow
  rcases hrow with h | h | h | h | h | h | h | h | h <;>
    obtain ⟨rfl, rfl, rfl⟩ := h
  · have h4 : ¬(([0x50, 0x4B, 0x03, 0x04] ++ t : List Nat).take 16).length < 4 := by
      simp only [List.length_take, List.length_append] at hlen ⊢; omega
    have hscan : magicScan (pyLower s)
        (([0x50, 0x4B, 0x03, 0x04] : List Nat) ++ t.take 12) MAGIC_NUMBERS =
        some (entryRes (pyLower s)
          (([0x50, 0x4B, 0x03, 0x04] : List Nat) ++ t.take 12)
          [0x50, 0x4B, 0x03, 0x04] "ZIP" (some ".zip")) := by
      simp [MAGIC_NUMBERS, magicScan, List.isPrefixOf, List.cons_append]
    rw [identify_of_scan (by simp) h4
        (by rw [show (([0x50, 0x4B, 0x03, 0x04] ++ t : List Nat)).take 16 =
            [0x50, 0x4B, 0x03, 0x04] ++ t.take 12 by
          rw [List.take_append_eq_append_take]; congr 1]; exact hscan),
      entryRes_mismatch _ _ _ _ (by decide) hext (by decide)]
  · have h4 : ¬(([0x50, 0x4B, 0x05, 0x06] ++ t : List Nat).take 16).length < 4 := by
      simp only [List.length_take, List.length_append] at hlen ⊢; omega
    have hscan : magicScan (pyLower s)
        (([0x50, 0x4B, 0x05, 0x06] : List Nat) ++ t.take 12) MAGIC_NUMBERS =
        some (entryRes (pyLower s)
          (([0x50, 0x4B, 0x05, 0x06] : List Nat) ++ t.take 12)
          [0x50, 0x4B, 0x05, 0x06] "ZIP" (some ".zip")) := by
      simp [MAGIC_NUMBERS, magicScan, List.isPrefixOf, List.cons_append]
    rw [identify_of_scan (by simp) h4
        (by rw [show (([0x50, 0x4B, 0x05, 0x06] ++ t : List Nat)).take 16 =
            [0x50, 0x4B, 0x05, 0x06] ++ t.take 12 by
          rw [List.take_append_eq_append_take]; congr 1]; exact hscan),
      entryRes_mismatch _ _ _ _ (by decide) hext (by decide)]
  · have h4 : ¬(([0x50, 0x4B, 0x07, 0x08] ++ t : List Nat).take 16).length < 4 := by
      simp only [List.length_take, List.length_append] at hlen ⊢; omega
    have hscan : magicScan (pyLower s)
        (([0x50, 0x4B, 0x07, 0x08] : List Nat) ++ t.take 12) MAGIC_NUMBERS =
        some (entryRes (pyLower s)
          (([0x50, 0x4B, 0x07, 0x08] : List Nat) ++ t.take 12)
          [0x50, 0x4B, 0x07, 0x08] "ZIP" (some ".zip")) := by
      simp [MAGIC_NUMBERS, magicScan, List.isPrefixOf, List.cons_append]
    rw [identify_of_scan (by simp) h4
        (by rw [show (([0x50, 0x4B, 0x07, 0x08] ++ t : List Nat)).take 16 =
            [0x50, 0x4B, 0x07, 0x08] ++ t.take 12 by
          rw [List.take_append_eq_append_take]; congr 1]; exact hscan),
      entryRes_mismatch _ _ _ _ (by decide) hext (by decide)]
  · have h4 : ¬(([0x52, 0x61, 0x72, 0x21] ++ t : List Nat).take 16).length < 4 := by
      simp only [List.length_take, List.length_append] at hlen ⊢; omega
    have hscan : magicScan (pyLower s)
        (([0x52, 0x61, 0x72, 0x21] : List Nat) ++ t.take 12) MAGIC_NUMBERS =
        some (entryRes (pyLower s)
          (([0x52, 0x61, 0x72, 0x21] : List Nat) ++ t.take 12)
          [0x52, 0x61, 0x72, 0x21] "RAR" (some ".rar")) := by
      simp [MAGIC_NUMBERS, magicScan, List.isPrefixOf, List.cons_append]
    rw [identify_of_scan (by simp) h4
        (by rw [show (([0x52, 0x61, 0x72, 0x21] ++ t : List Nat)).take 16 =
            [0x52, 0x61, 0x72, 0x21] ++ t.take 12 by
          rw [List.take_append_eq_append_take]; congr 1]; exact hscan),
      entryRes_mismatch _ _ _ _ (by decide) hext (by decide)]
  · have h4 : ¬(([0x52, 0x61, 0x72, 0x21, 0x1A, 0x07] ++ t : List Nat).take 16).length < 4 := by
      simp only [List.length_take, List.length_append] at hlen ⊢; omega
    have hscan : magicScan (pyLower s)
        (([0x52, 0x61, 0x72, 0x21, 0x1A, 0x07] : List Nat) ++ t.take 10) MAGIC_NUMBERS =
        some (entryRes (pyLower s)
          (([0x52, 0x61, 0x72, 0x21, 0x1A, 0x07] : List Nat) ++ t.take 10)
          [0x52, 0x61, 0x72, 0x21] "RAR" (some ".rar")) := by
      simp [MAGIC_NUMBERS, magicScan, List.isPrefixOf, List.cons_append]
    rw [identify_of_scan (by simp) h4
        (by rw [show (([0x52, 0x61, 0x72, 0x21, 0x1A, 0x07] ++ t : List Nat)).take 16 =
            [0x52, 0x61, 0x72, 0x21, 0x1A, 0x07] ++ t.take 10 by
          rw [List.take_append_eq_append_take]; congr 1]; exact hscan),
      entryRes_mismatch _ _ _ _ (by decide) hext (by decide)]
  · have h4 : ¬(([0x37, 0x7A, 0xBC, 0xAF, 0x27, 0x1C] ++ t : List Nat).take 16).length < 4 := by
      simp only [List.length_take, List.length_append] at hlen ⊢; omega
    have hscan : magicScan (pyLower s)
        (([0x37, 0x7A, 0xBC, 0xAF, 0x27, 0x1C] : List Nat) ++ t.take 10) MAGIC_NUMBERS =
        some (entryRes (pyLower s)
          (([0x37, 0x7A, 0xBC, 0xAF, 0x27, 0x1C] : List Nat) ++ t.take 10)
          [0x37, 0x7A, 0xBC, 0xAF, 0x27, 0x1C] "7Z" (some ".7z")) := by
      simp [MAGIC_NUMBERS, magicScan, List.isPrefixOf, List.cons_append]
    rw [identify_of_scan (by simp) h4
        (by rw [show (([0x37, 0x7A, 0xBC, 0xAF, 0x27, 0x1C] ++ t : List Nat)).take 16 =
            [0x37, 0x7A, 0xBC, 0xAF, 0x27, 0x1C] ++ t.take 10 by
          rw [List.take_append_eq_append_take]; congr 1]; exact hscan),
      entryRes_mismatch _ _ _ _ (by decide) hext (by decide)]
  · have h4 : ¬(([0x1F, 0x8B] ++ t : List Nat).take 16).length < 4 := by
      simp only [List.length_take, List.length_append] at hlen ⊢; omega
    have hscan : magicScan (pyLower s)
        (([0x1F, 0x8B] : List Nat) ++ t.take 14) MAGIC_NUMBERS =
        some (entryRes (pyLower s)
          (([0x1F, 0x8B] : List Nat) ++ t.take 14)
          [0x1F, 0x8B] "GZIP" (some ".gz")) := by
      simp [MAGIC_NUMBERS, magicScan, List.isPrefixOf, List.cons_append]
    rw [identify_of_scan (by simp) h4
        (by rw [show (([0x1F, 0x8B] ++ t : List Nat)).take 16 =
            [0x1F, 0x8B] ++ t.take 14 by
          rw [List.take_append_eq_append_take]; congr 1]; exact hscan),
      entryRes_mismatch _ _ _ _ (by decide) hext (by decide)]
  · have h4 : ¬(([0x42, 0x5A, 0x68] ++ t : List Nat).take 16).length < 4 := by
      simp only [List.length_take, List.length_append] at hlen ⊢; omega
    have hscan : magicScan (pyLower s)
        (([0x42, 0x5A, 0x68] : List Nat) ++ t.take 13) MAGIC_NUMBERS =
        some (entryRes (pyLower s)
          (([0x42, 0x5A, 0x68] : List Nat) ++ t.take 13)
          [0x42, 0x5A, 0x68] "BZIP2" (some ".bz2")) := by
      simp [MAGIC_NUMBERS, magicScan, List.isPrefixOf, List.cons_append]
    rw [identify_of_scan (by simp) h4
        (by rw [show (([0x42, 0x5A, 0x68] ++ t : List Nat)).take 16 =
            [0x42, 0x5A, 0x68] ++ t.take 13 by
          rw [List.take_append_eq_append_take]; congr 1]; exact hscan),
      entryRes_mismatch _ _ _ _ (by decide) hext (by decide)]
  · have h4 : ¬(([0xFD, 0x37, 0x7A, 0x58, 0x5A, 0x00] ++ t : List Nat).take 16).length < 4 := by
      simp only [List.length_take, List.length_append] at hlen ⊢; omega
    have hscan : magicScan (pyLower s)
        (([0xFD, 0x37, 0x7A, 0x58, 0x5A, 0x00] : List Nat) ++ t.take 10) MAGIC_NUMBERS =
        some (entryRes (pyLower s)
          (([0xFD, 0x37, 0x7A, 0x58, 0x5A, 0x00] : List Nat) ++ t.take 10)
          [0xFD, 0x37, 0x7A, 0x58, 0x5A, 0x00] "XZ" (some ".xz")) := by
      simp [MAGIC_NUMBERS, magicScan, List.isPrefixOf, List.cons_append]
    rw [identify_of_scan (by simp) h4
        (by rw [show (([0xFD, 0x37, 0x7A, 0x58, 0x5A, 0x00] ++ t : List Nat)).take 16 =
            [0xFD, 0x37, 0x7A, 0x58, 0x5A, 0x00] ++ t.take 10 by
          rw [List.take_append_eq_append_take]; congr 1]; exact hscan),
      entryRes_mismatch _ _ _ _ (by decide) hext (by decide)]

/-- C4 witness: the amended theorem applied to a concrete RAR v5 buffer
with a `.txt` extension. -/
theorem claim_C4_witness :
    identify true ([0x52, 0x61, 0x72, 0x21, 0x1A, 0x07] ++ [0x00]) ".txt" =
      ⟨true, some "RAR", "文件头识别为 RAR 格式，但扩展名是 .txt"⟩ := by
  have h := claim_C4 [0x52, 0x61, 0x72, 0x21, 0x1A, 0x07] "RAR" ".rar"
    (by decide) [0x00] ".txt" (by decide) (by decide)
  exact h.trans (by decide)

theorem digitsVal_append_one (l : List Char) (c : Char) :
    digitsVal (l ++ [c]) = 10 * digitsVal l + decVal c := by
  simp [digitsVal, List.foldl_append]

theorem decVal_decChar {n : Nat} (h : n < 10) : decVal (decChar n) = n := by
  interval_cases n <;> decide

theorem natStrAux_val : ∀ fl n, n < fl → digitsVal (natStrAux fl n) = n := by
  intro fl
  induction fl with
  | zero => intro n h; omega
  | succ fl ih =>
    intro n h
    rw [natStrAux]
    by_cases h10 : n < 10
    · rw [if_pos h10]
      simp [digitsVal, decVal_decChar h10]
    · rw [if_neg h10]
      rw [digitsVal_append_one, ih (n / 10) (by omega),
        decVal_decChar (Nat.mod_lt _ (by norm_num))]
      omega

theorem natStr_inj {a b : Nat} (h : natStr a = natStr b) : a = b := by
  have hd : natStrAux (a + 1) a = natStrAux (b + 1) b :=
    congrArg String.data h
  have := congrArg digitsVal hd
  rwa [natStrAux_val _ _ (by omega), natStrAux_val _ _ (by omega)] at this

theorem str_append_cancel_left {a x y : String} (h : a ++ x = a ++ y) :
    x = y := by
  obtain ⟨la⟩ := a; obtain ⟨lx⟩ := x; obtain ⟨ly⟩ := y
  have : la ++ lx = la ++ ly := congrArg String.data h
  exact congrArg String.mk (List.append_cancel_left this)

theorem str_append_cancel_right {x y b : String} (h : x ++ b = y ++ b) :
    x = y := by
  obtain ⟨lb⟩ := b; obtain ⟨lx⟩ := x; obtain ⟨ly⟩ := y
  have : lx ++ lb = ly ++ lb := congrArg String.data h
  exact congrArg String.mk (List.append_cancel_right this)

theorem collision_name_inj {stem sfx : String} {i j : Nat}
    (h : stem ++ "_" ++ natStr i ++ sfx = stem ++ "_" ++ natStr j ++ sfx) :
    i = j :=
  natStr_inj (str_append_cancel_left (str_append_cancel_right h))

theorem taken_mem_allPaths {st : St} {dirs : List String} {stem sfx : String}
    (h : pathExistsF st dirs stem sfx = true) :
    dirs ++ [stem ++ sfx] ∈ allPaths st := by
  unfold pathExistsF at h
  simp only [Bool.or_eq_true, List.any_eq_true, Bool.and_eq_true,
    beq_iff_eq, and_assoc] at h
  unfold allPaths
  rcases h with (⟨e, he, h1, h2, h3⟩ | h) | h
  · refine List.mem_append_left _ (List.mem_append_left _ ?_)
    exact List.mem_map.mpr ⟨e, he, by rw [h1, h2, h3]⟩
  · exact List.mem_append_left _
      (List.mem_append_right _ (List.mem_of_elem_eq_true h))
  · exact List.mem_append_right _ (List.mem_of_elem_eq_true h)

theorem freeFrom_adequate (st : St) (dirs : List String) (stem sfx : String) :
    ∃ j, 1 ≤ j ∧ j < 1 + stBound st ∧
      pathExistsF st dirs (stem ++ "_" ++ natStr j) sfx = false := by
  by_contra hc
  push_neg at hc
  have hkey : ∀ i < stBound st,
      (dirs ++ [stem ++ "_" ++ natStr (i + 1) ++ sfx]) ∈ allPaths st := by
    intro i hi
    have h' := hc (i + 1) (by omega) (by omega)
    have : pathExistsF st dirs (stem ++ "_" ++ natStr (i + 1)) sfx = true := by
      revert h'
      cases pathExistsF st dirs (stem ++ "_" ++ natStr (i + 1)) sfx <;> simp
    simpa using taken_mem_allPaths this
  have hinj : Function.Injective
      (fun i => dirs ++ [stem ++ "_" ++ natStr (i + 1) ++ sfx]) := by
    intro i j hij
    have h1 : stem ++ "_" ++ natStr (i + 1) ++ sfx =
        stem ++ "_" ++ natStr (j + 1) ++ sfx := by
      have := List.append_cancel_left hij
      exact (List.cons.injEq _ _ _ _ ▸ congrArg id this).1
    have := collision_name_inj h1
    omega
  have hnd : ((List.range (stBound st)).map
      (fun i => dirs ++ [stem ++ "_" ++ natStr (i + 1) ++ sfx])).Nodup :=
    (List.nodup_range _).map hinj
  have hsub : ((List.range (stBound st)).map
      (fun i => dirs ++ [stem ++ "_" ++ natStr (i + 1) ++ sfx])).toFinset ⊆
      (allPaths st).toFinset := by
    intro x hx
    rw [List.mem_toFinset] at hx ⊢
    obtain ⟨i, hi, rfl⟩ := List.mem_map.mp hx
    exact hkey i (List.mem_range.mp hi)
  have hc1 : ((List.range (stBound st)).map
      (fun i => dirs ++ [stem ++ "_" ++ natStr (i + 1) ++ sfx])).toFinset.card
      = stBound st := by
    rw [List.toFinset_card_of_nodup hnd, List.length_map, List.length_range]
  have hc2 : (allPaths st).toFinset.card ≤ stBound st - 1 := by
    calc (allPaths st).toFinset.card ≤ (allPaths st).length :=
          List.toFinset_card_le _
      _ = stBound st - 1 := by simp only [allPaths, stBound,
          List.length_append, List.length_map]; omega
  have hcards := Finset.card_le_card hsub
  have hb : 1 ≤ stBound st := by unfold stBound; omega
  omega

theorem freeFrom_lower (st : St) (dirs : List String) (stem sfx : String) :
    ∀ b k, k ≤ freeFrom st dirs stem sfx b k := by
  intro b
  induction b with
  | zero => intro k; simp [freeFrom]
  | succ b ih =>
    intro k
    rw [freeFrom]
    split
    · exact le_trans (Nat.le_succ k) (ih (k + 1))
    · exact le_refl k

theorem freeFrom_taken_below (st : St) (dirs : List String) (stem sfx : String) :
    ∀ b k j, k ≤ j → j < freeFrom st dirs stem sfx b k →
      pathExistsF st dirs (stem ++ "_" ++ natStr j) sfx = true := by
  intro b
  induction b with
  | zero => intro k j hk hj; simp [freeFrom] at hj; omega
  | succ b ih =>
    intro k j hk hj
    rw [freeFrom] at hj
    by_cases ht : pathExistsF st dirs (stem ++ "_" ++ natStr k) sfx = true
    · rw [if_pos ht] at hj
      rcases Nat.eq_or_lt_of_le hk with rfl | hk'
      · exact ht
      · exact ih (k + 1) j hk' hj
    · rw [if_neg ht] at hj
      omega

theorem freeFrom_free (st : St) (dirs : List String) (stem sfx : String) :
    ∀ b k, (∃ j, k ≤ j ∧ j < k + b ∧
        pathExistsF st dirs (stem ++ "_" ++ natStr j) sfx = false) →
      pathExistsF st dirs
        (stem ++ "_" ++ natStr (freeFrom st dirs stem sfx b k)) sfx = false := by
  intro b
  induction b with
  | zero => intro k ⟨j, hk, hj, _⟩; omega
  | succ b ih =>
    intro k ⟨j, hk, hj, hfree⟩
    rw [freeFrom]
    by_cases ht : pathExistsF st dirs (stem ++ "_" ++ natStr k) sfx = true
    · rw [if_pos ht]
      refine ih (k + 1) ⟨j, ?_, by omega, hfree⟩
      rcases Nat.eq_or_lt_of_le hk with rfl | hk'
      · rw [ht] at hfree; exact absurd hfree (by simp)
      · exact hk'
    · rw [if_neg ht]
      revert ht
      cases pathExistsF st dirs (stem ++ "_" ++ natStr k) sfx <;> simp

theorem evExt_refl (st : St) (P : Ev → Bool) : evExt st st P :=
  ⟨[], by simp, rfl⟩

theorem evExt_trans {a b c : St} {P : Ev → Bool} (h₁ : evExt a b P)
    (h₂ : evExt b c P) : evExt a c P := by
  obtain ⟨d₁, hd₁, ha₁⟩ := h₁
  obtain ⟨d₂, hd₂, ha₂⟩ := h₂
  exact ⟨d₁ ++ d₂, by simp [hd₂, hd₁], by simp [List.all_append, ha₁, ha₂]⟩

theorem evExt_push {st : St} {P : Ev → Bool} {e : Ev} (h : P e = true) :
    evExt st (push st e) P :=
  ⟨[e], rfl, by simp [h]⟩

theorem evExt_pushL {st : St} {P : Ev → Bool} {l : List Ev}
    (h : l.all P = true) : evExt st (pushL st l) P :=
  ⟨l, rfl, h⟩

theorem evExt_tempMk {st : St} {P : Ev → Bool} {p : List String}
    (h : P (.tempCreate p) = true) : evExt st (tempMk st p) P :=
  ⟨[.tempCreate p], rfl, by simp [h]⟩

theorem evExt_tempRm {st : St} {P : Ev → Bool} {p : List String}
    (h : P (.tempRemove p) = true) : evExt st (tempRm st p) P := by
  unfold tempRm
  split
  · exact ⟨[.tempRemove p], rfl, by simp [h]⟩
  · exact evExt_refl st P

theorem insDir_evs (st : St) (d : List String) : (insDir st d).evs = st.evs := by
  unfold insDir; split <;> rfl

theorem foldl_insDir_evs (f : Nat → List String) :
    ∀ (L : List Nat) (st : St),
      (L.foldl (fun s i => insDir s (f i)) st).evs = st.evs := by
  intro L
  induction L with
  | nil => intro st; rfl
  | cons a L ih => intro st; rw [List.foldl_cons, ih, insDir_evs]

theorem mkChain_evs (st : St) (fin rel : List String) :
    (mkChain st fin rel).evs = st.evs :=
  foldl_insDir_evs _ _ st

theorem foldl_insDir_fdirs (f : Nat → List String) :
    ∀ (L : List Nat) (st : St) (d : List String),
      d ∈ (L.foldl (fun s i => insDir s (f i)) st).fdirs →
      d ∈ st.fdirs ∨ ∃ i, i ∈ L ∧ d = f i := by
  intro L
  induction L with
  | nil => intro st d h; exact Or.inl h
  | cons a L ih =>
    intro st d h
    rw [List.foldl_cons] at h
    rcases ih _ _ h with h' | ⟨i, hi, rfl⟩
    · unfold insDir at h'
      split at h'
      · exact Or.inl h'
      · rcases List.mem_append.mp h' with h'' | h''
        · exact Or.inl h''
        · exact Or.inr ⟨a, List.mem_cons_self _ _, (List.mem_singleton.mp h'').symm ▸ rfl⟩
    · exact Or.inr ⟨i, List.mem_cons_of_mem _ hi, rfl⟩

theorem mkChain_fdirs {st : St} {fin rel d : List String}
    (h : d ∈ (mkChain st fin rel).fdirs) :
    d ∈ st.fdirs ∨ ∃ i, i < rel.length ∧ d = fin ++ rel.take (i + 1) := by
  rcases foldl_insDir_fdirs _ _ _ _ h with h' | ⟨i, hi, rfl⟩
  · exact Or.inl h'
  · exact Or.inr ⟨i, List.mem_range.mp hi, rfl⟩

theorem fix_scan_evs (renameOk : Bool) (stem sfx : String) (hd : List Nat) :
    ∀ (tbl : List (List Nat × String × Option String)) res,
      fix_scan renameOk stem sfx hd tbl = some res → res.2.all erP = true := by
  intro tbl
  induction tbl with
  | nil => intro res h; simp [fix_scan] at h
  | cons q rest ih =>
    intro res h
    obtain ⟨m, f, x⟩ := q
    rw [fix_scan.eq_def] at h
    dsimp only at h
    by_cases hp : m.isPrefixOf hd = true
    · rw [if_pos hp] at h
      cases x with
      | some e =>
        dsimp only at h
        by_cases hr : renameOk = true
        · rw [if_pos hr] at h
          obtain rfl := Option.some_inj.mp h
          rfl
        · rw [if_neg hr] at h
          obtain rfl := Option.some_inj.mp h
          rfl
      | none => exact ih _ h
    · rw [if_neg hp] at h
      exact ih _ h

theorem fix_extension_evs (renameOk : Bool) (n : VNode) :
    (fix_extension renameOk n).2.all erP = true := by
  cases n with
  | vdir dn => rfl
  | vfile s x c p d =>
    unfold fix_extension
    dsimp only
    split_ifs with h1 h2
    · rfl
    · rfl
    · cases hs : fix_scan renameOk s x (c.take 16) MAGIC_NUMBERS with
      | none => rfl
      | some res =>
        obtain ⟨a, b⟩ := res
        simpa using fix_scan_evs renameOk s x (c.take 16) MAGIC_NUMBERS (a, b) hs

theorem fix_extension_isFile (renameOk : Bool) (n : VNode) :
    (fix_extension renameOk n).1.isFile = n.isFile := by
  cases n with
  | vdir dn => rfl
  | vfile s x c p d =>
    unfold fix_extension
    dsimp only
    split_ifs with h1 h2
    · rfl
    · rfl
    · cases hs : fix_scan renameOk s x (c.take 16) MAGIC_NUMBERS with
      | none => rfl
      | some res => obtain ⟨a, b⟩ := res; rfl

theorem fix_extension_dec (renameOk : Bool) (n : VNode) :
    (fix_extension renameOk n).1.dec = n.dec := by
  cases n with
  | vdir dn => rfl
  | vfile s x c p d =>
    unfold fix_extension
    dsimp only
    split_ifs with h1 h2
    · rfl
    · rfl
    · cases hs : fix_scan renameOk s x (c.take 16) MAGIC_NUMBERS with
      | none => rfl
      | some res => obtain ⟨a, b⟩ := res; rfl

theorem fix_extension_present (renameOk : Bool) (n : VNode) :
    (fix_extension renameOk n).1.present = n.present := by
  cases n with
  | vdir dn => rfl
  | vfile s x c p d =>
    unfold fix_extension
    dsimp only
    split_ifs with h1 h2
    · rfl
    · rfl
    · cases hs : fix_scan renameOk s x (c.take 16) MAGIC_NUMBERS with
      | none => rfl
      | some res => obtain ⟨a, b⟩ := res; rfl

theorem moveOne_none {env : Env} (hmr : noMoveEnv env)
    (fin rel : List String) (n : VNode) (st : St) :
    (moveOne env fin rel n st).1 = none := by
  have hmr' : ∀ (dd : List String) (s x : String),
      env.moveRaises dd s x = false := hmr
  cases n with
  | vdir dn =>
    unfold moveOne
    dsimp only
    split_ifs <;> rfl
  | vfile s x c p d =>
    unfold moveOne
    dsimp only
    by_cases hcol : pathExistsF (if rel = [] then st else mkChain st fin rel)
        (fin ++ rel) s x = true
    · rw [if_pos hcol]
      dsimp only
      cases p
      · simp
      · simp [hmr']
    · rw [if_neg hcol]
      dsimp only
      cases p
      · simp
      · simp [hmr']

theorem moveOne_evExt (env : Env) (fin rel : List String) {n : VNode}
    (hf : n.isFile = true) (st : St) :
    evExt st (moveOne env fin rel n st).2 erP := by
  cases n with
  | vdir dn => simp [VNode.isFile] at hf
  | vfile s x c p d =>
    unfold moveOne
    dsimp only
    have hmk : evExt st (if rel = [] then st else mkChain st fin rel) erP := by
      split
      · exact evExt_refl st erP
      · exact ⟨[], by simp [mkChain_evs], rfl⟩
    set st₁ := (if rel = [] then st else mkChain st fin rel) with hst₁
    by_cases hcol : pathExistsF st₁ (fin ++ rel) s x = true
    · rw [if_pos hcol]
      dsimp only
      have hpush : evExt st (push st₁ (.renamedOnCollision (s ++ x)
          (s ++ "_" ++ natStr (freeFrom st₁ (fin ++ rel) s x (stBound st₁) 1)
            ++ x))) erP :=
        evExt_trans hmk (evExt_push rfl)
      split
      · split
        · exact hpush
        · exact evExt_trans hpush ⟨[.movedFile (fin ++ rel)
            (s ++ "_" ++ natStr (freeFrom st₁ (fin ++ rel) s x (stBound st₁) 1))
            x], rfl, rfl⟩
      · exact hpush
    · rw [if_neg hcol]
      dsimp only
      split
      · split
        · exact hmk
        · exact evExt_trans hmk ⟨[.movedFile (fin ++ rel) s x], rfl, rfl⟩
      · exact hmk

theorem moveOne_fdirs {env : Env} {fin rel : List String} {n : VNode}
    (hf : n.isFile = true) {st : St} {d : List String}
    (h : d ∈ (moveOne env fin rel n st).2.fdirs) :
    d ∈ st.fdirs ∨ ∃ i, i < rel.length ∧ d = fin ++ rel.take (i + 1) := by
  cases n with
  | vdir dn => simp [VNode.isFile] at hf
  | vfile s x c p dd =>
    have hfd : (moveOne env fin rel (.vfile s x c p dd) st).2.fdirs =
        ((if rel = [] then st else mkChain st fin rel) : St).fdirs := by
      unfold moveOne
      dsimp only
      split_ifs <;> rfl
    rw [hfd] at h
    by_cases hrel : rel = []
    · rw [if_pos hrel] at h; exact Or.inl h
    · rw [if_neg hrel] at h; exact mkChain_fdirs h

theorem movePhase_none {env : Env} (hmr : noMoveEnv env)
    (fin : List String) :
    ∀ (l : List (List String × VNode)) (st : St),
      ∃ st', movePhase env fin l st = (none, st') := by
  intro l
  induction l with
  | nil => intro st; exact ⟨st, rfl⟩
  | cons p rest ih =>
    intro st
    obtain ⟨rel, n⟩ := p
    rw [movePhase]
    have h1 := moveOne_none hmr fin rel n st
    cases hmo : moveOne env fin rel n st with
    | mk o st' =>
      rw [hmo] at h1
      subst h1
      exact ih st'

theorem movePhase_evExt (env : Env) (fin : List String) :
    ∀ (l : List (List String × VNode)),
      (∀ p ∈ l, (p.2 : VNode).isFile = true) →
      ∀ st : St, evExt st (movePhase env fin l st).2 erP := by
  intro l
  induction l with
  | nil => intro _ st; exact evExt_refl st erP
  | cons p rest ih =>
    intro hl st
    obtain ⟨rel, n⟩ := p
    rw [movePhase]
    have h1 := moveOne_evExt env fin rel (hl _ (List.mem_cons_self _ _)) st
    cases hmo : moveOne env fin rel n st with
    | mk o st' =>
      rw [hmo] at h1
      cases o with
      | some e => exact h1
      | none =>
        exact evExt_trans h1
          (ih (fun q hq => hl q (List.mem_cons_of_mem _ hq)) st')

theorem movePhase_fdirs (env : Env) (fin : List String) :
    ∀ (l : List (List String × VNode)),
      (∀ p ∈ l, (p.2 : VNode).isFile = true) →
      ∀ (st : St) (d : List String), d ∈ (movePhase env fin l st).2.fdirs →
        d ∈ st.fdirs ∨
          ∃ p, p ∈ l ∧ ∃ i, i < p.1.length ∧ d = fin ++ p.1.take (i + 1) := by
  intro l
  induction l with
  | nil => intro _ st d h; exact Or.inl h
  | cons p rest ih =>
    intro hl st d h
    obtain ⟨rel, n⟩ := p
    rw [movePhase] at h
    cases hmo : moveOne env fin rel n st with
    | mk o st' =>
      rw [hmo] at h
      cases o with
      | some e =>
        dsimp only at h
        rcases moveOne_fdirs (hl _ (List.mem_cons_self _ _))
            (hmo ▸ h : d ∈ (moveOne env fin rel n st).2.fdirs) with h' | ⟨i, hi, rfl⟩
        · exact Or.inl h'
        · exact Or.inr ⟨(rel, n), List.mem_cons_self _ _, i, hi, rfl⟩
      | none =>
        dsimp only at h
        rcases ih (fun q hq => hl q (List.mem_cons_of_mem _ hq)) st' d h with
          h' | ⟨q, hq, i, hi, rfl⟩
        · rcases moveOne_fdirs (hl _ (List.mem_cons_self _ _))
              (hmo ▸ h' : d ∈ (moveOne env fin rel n st).2.fdirs) with
            h'' | ⟨i, hi, rfl⟩
          · exact Or.inl h''
          · exact Or.inr ⟨(rel, n), List.mem_cons_self _ _, i, hi, rfl⟩
        · exact Or.inr ⟨q, List.mem_cons_of_mem _ hq, i, hi, rfl⟩

theorem classifyPhase_evExt (renameOk : Bool) :
    ∀ (l : List (List String × VNode)) (st : St),
      evExt st (classifyPhase renameOk l st).2.2 erP := by
  intro l
  induction l with
  | nil => intro st; exact evExt_refl st erP
  | cons p rest ih =>
    intro st
    obtain ⟨dd, n⟩ := p
    rw [classifyPhase]
    split
    · cases hcl : classifyPhase renameOk rest
          (pushL st ((fix_extension renameOk n).2 ++
            [.info ("✓ 压缩文件: " ++ (fix_extension renameOk n).1.name)])) with
      | mk archs rest2 =>
        obtain ⟨nons, st'⟩ := rest2
        dsimp only
        rw [hcl]
        dsimp only
        have h2 := ih (pushL st ((fix_extension renameOk n).2 ++
          [.info ("✓ 压缩文件: " ++ (fix_extension renameOk n).1.name)]))
        rw [hcl] at h2
        refine evExt_trans (evExt_pushL ?_) h2
        simp [List.all_append, fix_extension_evs, erP, isOkFileEv, isDirBranchEv]
    · cases hcl : classifyPhase renameOk rest
          (push st (.info ("✗ 非压缩文件: " ++ n.name))) with
      | mk archs rest2 =>
        obtain ⟨nons, st'⟩ := rest2
        dsimp only
        rw [hcl]
        dsimp only
        have h2 := ih (push st (.info ("✗ 非压缩文件: " ++ n.name)))
        rw [hcl] at h2
        refine evExt_trans (evExt_push ?_) h2
        rfl

theorem classifyPhase_nons (renameOk : Bool) :
    ∀ (l : List (List String × VNode)),
      (∀ p ∈ l, (p.2 : VNode).isFile = true) →
      ∀ (st : St) (p : List String × VNode),
        p ∈ (classifyPhase renameOk l st).2.1 → p.2.isFile = true := by
  intro l
  induction l with
  | nil => intro _ st p h; simp [classifyPhase] at h
  | cons q rest ih =>
    intro hl st p hp
    obtain ⟨dd, n⟩ := q
    rw [classifyPhase] at hp
    revert hp
    split
    · cases hcl : classifyPhase renameOk rest
          (pushL st ((fix_extension renameOk n).2 ++
            [.info ("✓ 压缩文件: " ++ (fix_extension renameOk n).1.name)])) with
      | mk archs rest2 =>
        obtain ⟨nons, st'⟩ := rest2
        dsimp only
        rw [hcl]
        dsimp only
        intro hp
        have h3 := ih (fun r hr => hl r (List.mem_cons_of_mem _ hr))
          (pushL st ((fix_extension renameOk n).2 ++
            [.info ("✓ 压缩文件: " ++ (fix_extension renameOk n).1.name)])) p
        rw [hcl] at h3
        exact h3 hp
    · cases hcl : classifyPhase renameOk rest
          (push st (.info ("✗ 非压缩文件: " ++ n.name))) with
      | mk archs rest2 =>
        obtain ⟨nons, st'⟩ := rest2
        dsimp only
        rw [hcl]
        dsimp only
        intro hp
        rcases List.mem_cons.mp hp with rfl | hp'
        · exact hl _ (List.mem_cons_self _ _)
        · have h3 := ih (fun r hr => hl r (List.mem_cons_of_mem _ hr))
            (push st (.info ("✗ 非压缩文件: " ++ n.name))) p
          rw [hcl] at h3
          exact h3 hp'

theorem pa_evExt
    (recF : VNode → List String → Option (List String) → St → ExRes × St)
    (hrec : ∀ a inner fo st, evExt st (recF a inner fo st).2 erP) :
    ∀ (l : List (List String × VNode)) (inner : List String)
      (fo : Option (List String)) (st : St),
      evExt st (processArchivesWith recF l inner fo st).2 erP := by
  intro l
  induction l with
  | nil => intro inner fo st; exact evExt_refl st erP
  | cons p rest ih =>
    intro inner fo st
    obtain ⟨dd, a⟩ := p
    rw [processArchivesWith]
    have h1 := hrec a inner fo st
    cases hr : recF a inner fo st with
    | mk r st' =>
      rw [hr] at h1
      cases r with
      | raised e => exact h1
      | ok b => exact evExt_trans h1 (ih inner fo st')

theorem pa_ok
    (recF : VNode → List String → Option (List String) → St → ExRes × St)
    (hrec : ∀ a inner fo st, ∃ b st', recF a inner fo st = (.ok b, st')) :
    ∀ (l : List (List String × VNode)) (inner : List String)
      (fo : Option (List String)) (st : St),
      ∃ st', processArchivesWith recF l inner fo st = (none, st') := by
  intro l
  induction l with
  | nil => intro inner fo st; exact ⟨st, rfl⟩
  | cons p rest ih =>
    intro inner fo st
    obtain ⟨dd, a⟩ := p
    rw [processArchivesWith]
    obtain ⟨b, st', hr⟩ := hrec a inner fo st
    rw [hr]
    exact ih inner fo st'

theorem erMerge_evExt (env : Env)
    (recF : VNode → List String → Option (List String) → St → ExRes × St)
    (depth : Nat) (nodeName correctedStem : String)
    (extracted : List (List String × VNode))
    (od fin temp : List String) (st : St)
    (hrec : ∀ a inner fo s, evExt s (recF a inner fo s).2 erP)
    (hfiles : ∀ p ∈ extracted, (p.2 : VNode).isFile = true) :
    evExt st
      (erMerge env recF depth nodeName correctedStem extracted od fin temp
        st).2 erP := by
  unfold erMerge
  cases hcl : classifyPhase env.renameOk extracted st with
  | mk archives rest2 =>
    obtain ⟨nonArchives, st1⟩ := rest2
    dsimp only
    have hclE := classifyPhase_evExt env.renameOk extracted st
    rw [hcl] at hclE
    have hnons : ∀ p ∈ nonArchives, (p.2 : VNode).isFile = true := by
      intro p hp
      have h3 := classifyPhase_nons env.renameOk extracted hfiles st p
      rw [hcl] at h3
      exact h3 hp
    by_cases ha : archives.isEmpty = true
    · rw [if_pos ha]
      dsimp only
      cases hmv : movePhase env fin nonArchives st1 with
      | mk o st'' =>
        have hmvE := movePhase_evExt env fin nonArchives hnons st1
        rw [hmv] at hmvE
        cases o with
        | some e => exact evExt_trans hclE hmvE
        | none =>
          exact evExt_trans hclE (evExt_trans hmvE
            (evExt_trans (evExt_tempRm rfl) (evExt_push rfl)))
    · rw [if_neg ha]
      have hmkE : evExt st1 (mkChain st1 [] (od ++ [correctedStem])) erP :=
        ⟨[], by simp [mkChain_evs], rfl⟩
      cases hpq : processArchivesWith recF archives (od ++ [correctedStem])
          (some fin) (mkChain st1 [] (od ++ [correctedStem])) with
      | mk o2 st' =>
        have hpaE := pa_evExt recF hrec archives (od ++ [correctedStem])
          (some fin) (mkChain st1 [] (od ++ [correctedStem]))
        rw [hpq] at hpaE
        cases o2 with
        | some e => exact evExt_trans hclE (evExt_trans hmkE hpaE)
        | none =>
          dsimp only
          cases hmv : movePhase env fin nonArchives st' with
          | mk o st'' =>
            have hmvE := movePhase_evExt env fin nonArchives hnons st'
            rw [hmv] at hmvE
            cases o with
            | some e =>
              exact evExt_trans hclE (evExt_trans hmkE
                (evExt_trans hpaE hmvE))
            | none =>
              exact evExt_trans hclE (evExt_trans hmkE
                (evExt_trans hpaE (evExt_trans hmvE
                  (evExt_trans (evExt_tempRm rfl) (evExt_push rfl)))))

theorem erMerge_ok {env : Env}
    (recF : VNode → List String → Option (List String) → St → ExRes × St)
    (depth : Nat) (nodeName correctedStem : String)
    (extracted : List (List String × VNode))
    (od fin temp : List String) (st : St) (hmr : noMoveEnv env)
    (hrec : ∀ a inner fo s, ∃ b s', recF a inner fo s = (.ok b, s')) :
    ∃ st', erMerge env recF depth nodeName correctedStem extracted od fin
      temp st = (.ok true, st') := by
  unfold erMerge
  cases hcl : classifyPhase env.renameOk extracted st with
  | mk archives rest2 =>
    obtain ⟨nonArchives, st1⟩ := rest2
    dsimp only
    by_cases ha : archives.isEmpty = true
    · rw [if_pos ha]
      dsimp only
      obtain ⟨st'', hmv⟩ := movePhase_none hmr fin nonArchives st1
      rw [hmv]
      exact ⟨_, rfl⟩
    · rw [if_neg ha]
      obtain ⟨st', hpa⟩ := pa_ok recF hrec archives (od ++ [correctedStem])
        (some fin) (mkChain st1 [] (od ++ [correctedStem]))
      rw [hpa]
      dsimp only
      obtain ⟨st'', hmv⟩ := movePhase_none hmr fin nonArchives st'
      rw [hmv]
      exact ⟨_, rfl⟩

theorem er_evExt : ∀ (fuel : Nat) (env : Env) (depth : Nat) (node : VNode)
    (od : List String) (fo : Option (List String)) (st : St),
    evExt st (extract_recursive env fuel depth node od fo st).2 erP := by
  intro fuel
  induction fuel with
  | zero => intro env depth node od fo st; exact evExt_refl _ _
  | succ f ih =>
    intro env depth node od fo st
    rw [extract_recursive]
    by_cases hd : MAX_RECURSION_DEPTH < depth
    · rw [if_pos hd]
      exact evExt_pushL rfl
    rw [if_neg hd]
    by_cases hp : node.present = false
    · rw [if_pos hp]
      exact evExt_pushL rfl
    rw [if_neg hp]
    dsimp only
    cases hdec : (fix_extension env.renameOk node).1.dec with
    | none =>
      refine evExt_trans (evExt_trans (evExt_trans (evExt_trans
        (evExt_tempMk ?_) (evExt_pushL (fix_extension_evs _ _)))
        (evExt_push ?_)) (evExt_tempRm ?_)) (evExt_push ?_) <;> rfl
    | some out =>
      dsimp only
      by_cases hemp : (out.filter (fun p => p.2.isFile)).isEmpty = true
      · rw [if_pos hemp]
        refine evExt_trans (evExt_trans (evExt_trans (evExt_trans
          (evExt_trans (evExt_tempMk ?_)
            (evExt_pushL (fix_extension_evs _ _))) (evExt_push ?_))
          (evExt_push ?_)) (evExt_tempRm ?_)) (evExt_push ?_) <;> rfl
      · rw [if_neg hemp]
        refine evExt_trans (evExt_trans (evExt_trans
          (evExt_tempMk ?_) (evExt_pushL (fix_extension_evs _ _)))
          (evExt_push ?_))
          (erMerge_evExt env _ depth node.name
            (fix_extension env.renameOk node).1.stem _ od _ _ _
            (fun a i o s => ih env (depth + 1) a i o s)
            (fun p hp => (List.mem_filter.mp hp).2)) <;> rfl

theorem er_ok : ∀ (fuel : Nat) (env : Env), noMoveEnv env →
    ∀ depth : Nat, depth ≤ MAX_RECURSION_DEPTH + 1 →
      MAX_RECURSION_DEPTH + 2 ≤ fuel + depth →
      ∀ (node : VNode) (od : List String) (fo : Option (List String))
        (st : St),
        ∃ b st', extract_recursive env fuel depth node od fo st =
          (.ok b, st') := by
  intro fuel
  induction fuel with
  | zero => intro env hmr depth h1 h2; omega
  | succ f ih =>
    intro env hmr depth h1 h2 node od fo st
    rw [extract_recursive]
    by_cases hd : MAX_RECURSION_DEPTH < depth
    · rw [if_pos hd]
      exact ⟨false, _, rfl⟩
    rw [if_neg hd]
    by_cases hp : node.present = false
    · rw [if_pos hp]
      exact ⟨false, _, rfl⟩
    rw [if_neg hp]
    dsimp only
    cases hdec : (fix_extension env.renameOk node).1.dec with
    | none =>
      exact ⟨false, _, rfl⟩
    | some out =>
      dsimp only
      by_cases hemp : (out.filter (fun p => p.2.isFile)).isEmpty = true
      · rw [if_pos hemp]
        exact ⟨false, _, rfl⟩
      · rw [if_neg hemp]
        obtain ⟨st', hst'⟩ := erMerge_ok (extract_recursive env f (depth + 1))
          depth node.name (fix_extension env.renameOk node).1.stem
          (out.filter (fun p => p.2.isFile)) od
          (fo.getD od) (od ++ ["temp_extract_" ++ toString depth])
          (push (pushL (tempMk st (od ++ ["temp_extract_" ++ toString depth]))
            (fix_extension env.renameOk node).2)
            (.decodeTry (fix_extension env.renameOk node).1.name depth true))
          hmr
          (fun a i o s => ih env hmr (depth + 1) (by omega) (by omega) a i o s)
        exact ⟨true, st', hst'⟩

theorem countOk_append (a b : List Ev) :
    countOk (a ++ b) = countOk a + countOk b := by
  simp [countOk, List.filter_append]

theorem countOk_cons (e : Ev) (l : List Ev) :
    countOk (e :: l) = (if isOkFileEv e = true then 1 else 0) + countOk l := by
  simp only [countOk, List.filter_cons]
  split <;> simp [Nat.add_comm]

theorem countOk_erP {l : List Ev} (h : l.all erP = true) : countOk l = 0 := by
  unfold countOk
  rw [List.length_eq_zero]
  rw [List.filter_eq_nil_iff]
  intro a ha
  have h2 := (List.all_eq_true.mp h) a ha
  unfold erP at h2
  rw [Bool.and_eq_true] at h2
  have h3 := h2.1
  simp only [Bool.not_eq_true'] at h3
  simp [h3]

/-- C3: for every path that `identify` classifies as non-archive,
`fix_extension` performs no rename and returns the original path unchanged:
the node (its path and its bytes) is returned exactly as given and no
on-disk rename event is produced, whatever the rename environment. -/
theorem claim_C3 (renameOk : Bool) (n : VNode)
    (h : (identifyNode n).isArchive = false) :
    (fix_extension renameOk n).1 = n ∧
      (fix_extension renameOk n).2.all (fun e => !(isRenameEv e)) = true := by
  cases n with
  | vdir dn => exact ⟨rfl, by simp [fix_extension, isRenameEv]⟩
  | vfile stem sfx content present d =>
    have h' : (identify present content sfx).isArchive = false := by
      simpa [identifyNode] using h
    refine ⟨?_, ?_⟩ <;> simp [fix_extension, h', isRenameEv]

/-- C3 witness: a concrete plain text file is returned untouched. -/
theorem claim_C3_witness :
    (identifyNode plainLeaf).isArchive = false ∧
      (fix_extension true plainLeaf).1 = plainLeaf ∧
      (fix_extension true plainLeaf).2.all (fun e => !(isRenameEv e)) = true :=
  ⟨by decide, (claim_C3 true plainLeaf (by decide)).1,
    (claim_C3 true plainLeaf (by decide)).2⟩

set_option maxRecDepth 1000000 in
/-- C1: extracting the synthetic archive chain nested to depth 11 with the
default maximum depth 10 fails exactly at the frame of depth 11 (the
archive at the 11th nesting level) while the frames at depths 0-10
succeed; the external decoder is never invoked beyond the maximum depth;
and, in a variant with a sibling branch next to the over-deep chain, the
sibling is unaffected: its content reaches the final directory and the
top-level file still succeeds. -/
theorem claim_C1 :
    (extract envOK [⟨[], chainNode 11⟩] [] false St.empty).1 = 1 ∧
      callResults (extract envOK [⟨[], chainNode 11⟩] [] false St.empty).2.evs =
        [(11, false), (10, true), (9, true), (8, true), (7, true), (6, true),
          (5, true), (4, true), (3, true), (2, true), (1, true), (0, true)] ∧
      (extract envOK [⟨[], chainNode 11⟩] [] false St.empty).2.evs.all
        (fun e => !(isDeepWorkEv e)) = true ∧
      (extract envOK [⟨[], sibOuter⟩] [] false St.empty).1 = 1 ∧
      (extract envOK [⟨[], sibOuter⟩] [] false St.empty).2.files =
        [([], "keep", ".txt", [1, 2, 3, 4, 5])] ∧
      callResults (extract envOK [⟨[], sibOuter⟩] [] false St.empty).2.evs =
        [(11, false), (10, true), (9, true), (8, true), (7, true), (6, true),
          (5, true), (4, true), (3, true), (2, true), (1, true), (0, true)] := by
  refine ⟨by decide, by decide, by decide, by decide, by decide, by decide⟩

/-- C2 (code bug): the claim that every temp directory is removed exactly
once on every exit path, including unexpected exceptions, fails on the
code: `_extract_recursive` has no `try`/`finally` around steps 5-9, so
when `shutil.move` raises while merging a non-archive child the exception
propagates out of the frame before the cleanup of lines 251-252 runs and
the temp directory is leaked.  This theorem evaluates the embedded code at
such an input: the frame raises, its `temp_extract_0` directory still
exists afterwards, and it was created once and removed zero times. -/
theorem claim_C2 :
    (extract_recursive envRaise topFuel 0 arch1 [] none St.empty).1 =
        .raised "OSError: shutil.move failed" ∧
      (extract_recursive envRaise topFuel 0 arch1 [] none St.empty).2.temps =
        [["temp_extract_0"]] ∧
      (extract_recursive envRaise topFuel 0 arch1 [] none
          St.empty).2.evs.count (.tempCreate ["temp_extract_0"]) = 1 ∧
      (extract_recursive envRaise topFuel 0 arch1 [] none
          St.empty).2.evs.all (fun e => !(isTempRemoveEv e)) = true := by
  refine ⟨by decide, by decide, by decide, by decide⟩

/-- C5 (code bug): with a task that has a shared destination directory
(`extract_to_source` unset), `ExtractWorker.run` evaluates
`self._extractor._extract_batch`, an attribute `FileExtractor` does not
define; the `AttributeError` escapes `run` and the final success-count
event is never emitted, contradicting the claim.  This theorem evaluates
the embedded `run` at such a task list. -/
theorem claim_C5 :
    (workerRun envOK [⟨[⟨[], arch1⟩], some [], none⟩] false St.empty).1 =
        some "AttributeError: 'FileExtractor' object has no attribute '_extract_batch'" ∧
      (workerRun envOK [⟨[⟨[], arch1⟩], some [], none⟩] false
          St.empty).2.evs.all (fun e => !(isFinishedEv e)) = true := by
  refine ⟨by decide, by decide⟩

/-- C8: when a non-archive child's destination file path already exists,
the incoming file is renamed by appending the first free incrementing
numeric suffix before its extension and then moved (general part: the
merge step appends `_K` to the stem where `K ≥ 1` is free and every
smaller candidate `_j`, `1 ≤ j < K`, is taken), so extracting two source
archives that each contain `report.txt` into the same destination yields
`report.txt` and `report_1.txt` with their original distinct contents
(concrete part). -/
theorem claim_C8 :
    (∀ (env : Env) (fin relDirs : List String) (stem sfx : String)
        (content : List Nat) (d : Option (List (List String × VNode)))
        (st st₂ : St) (K : Nat),
      (∀ dd s x, env.moveRaises dd s x = false) →
      st₂ = (if relDirs = [] then st else mkChain st fin relDirs) →
      pathExistsF st₂ (fin ++ relDirs) stem sfx = true →
      K = freeFrom st₂ (fin ++ relDirs) stem sfx (stBound st₂) 1 →
      (moveOne env fin relDirs (.vfile stem sfx content true d) st).1 = none ∧
        (moveOne env fin relDirs (.vfile stem sfx content true d) st).2.files =
          st₂.files ++ [(fin ++ relDirs, stem ++ "_" ++ natStr K, sfx, content)] ∧
        1 ≤ K ∧
        pathExistsF st₂ (fin ++ relDirs) (stem ++ "_" ++ natStr K) sfx = false ∧
        (∀ j, 1 ≤ j → j < K →
          pathExistsF st₂ (fin ++ relDirs) (stem ++ "_" ++ natStr j) sfx
            = true)) ∧
      ((extract envOK [⟨[], reportA1⟩, ⟨[], reportA2⟩] [] false St.empty).1
          = 2 ∧
        (extract envOK [⟨[], reportA1⟩, ⟨[], reportA2⟩] [] false
            St.empty).2.files =
          [([], "report", ".txt", [1, 1, 1, 1]),
            ([], "report_1", ".txt", [2, 2, 2, 2])] ∧
        (extract envOK [⟨[], reportA1⟩, ⟨[], reportA2⟩] [] false
            St.empty).2.evs.count
          (.renamedOnCollision "report.txt" "report_1.txt") = 1) := by
  constructor
  · intro env fin relDirs stem sfx content d st st₂ K hmr hst₂ hcol hK
    have hfree := freeFrom_free st₂ (fin ++ relDirs) stem sfx (stBound st₂) 1
      (by
        obtain ⟨j, h1, h2, h3⟩ := freeFrom_adequate st₂ (fin ++ relDirs) stem sfx
        exact ⟨j, h1, by omega, h3⟩)
    have hlow := freeFrom_lower st₂ (fin ++ relDirs) stem sfx (stBound st₂) 1
    have hbelow := freeFrom_taken_below st₂ (fin ++ relDirs) stem sfx
      (stBound st₂)
    subst hK
    unfold moveOne
    rw [← hst₂]
    dsimp only
    rw [if_pos hcol]
    dsimp only
    simp only [hmr]
    exact ⟨by simp, by simp [push], hlow, hfree,
      fun j h1 h2 => hbelow 1 j h1 h2⟩
  · refine ⟨by decide, by decide, by decide⟩

/-- C8 witness: the general part applied to a concrete collision — a state
already holding `report.txt` receives another `report.txt`, which lands as
`report_1.txt` with its content intact. -/
theorem claim_C8_witness :
    (moveOne envOK [] [] (.vfile "report" ".txt" [7, 7] true none)
        ⟨[([], "report", ".txt", [9])], [], [], []⟩).1 = none ∧
      (moveOne envOK [] [] (.vfile "report" ".txt" [7, 7] true none)
        ⟨[([], "report", ".txt", [9])], [], [], []⟩).2.files =
        [([], "report", ".txt", [9]), ([], "report_1", ".txt", [7, 7])] := by
  have h := claim_C8.1 envOK [] [] "report" ".txt" [7, 7] none
    ⟨[([], "report", ".txt", [9])], [], [], []⟩
    ⟨[([], "report", ".txt", [9])], [], [], []⟩ 1
    (fun _ _ _ => rfl) (by decide) (by decide) (by decide)
  exact ⟨h.1, h.2.1.trans (by decide)⟩

/-- C6: a frame whose own decode succeeds with a non-empty file
enumeration returns success even when nested archives inside it fail
(general part: under an environment where moves succeed, any frame within
the depth bound whose node decodes to a non-empty set of files returns
`.ok true`, whatever the nested outcomes — the nested results are
discarded at extractor.py line 199); concretely, an outer archive with one
decodable and one failing nested archive is reported success, the log
records the nested failure, and the good nested content reaches the final
directory. -/
theorem claim_C6 :
    (∀ (env : Env) (fuel depth : Nat) (node : VNode) (od : List String)
        (fo : Option (List String)) (st : St)
        (out : List (List String × VNode)),
      noMoveEnv env → depth ≤ MAX_RECURSION_DEPTH →
      MAX_RECURSION_DEPTH + 2 ≤ fuel + depth →
      node.present = true → node.dec = some out →
      (out.filter (fun p => p.2.isFile)).isEmpty = false →
      ∃ st', extract_recursive env fuel depth node od fo st =
        (.ok true, st')) ∧
    ((extract envOK [⟨[], outer6⟩] [] false St.empty).1 = 1 ∧
      (extract envOK [⟨[], outer6⟩] [] false St.empty).2.files =
        [([], "f1", ".txt", [10, 11, 12, 13])] ∧
      callResults (extract envOK [⟨[], outer6⟩] [] false St.empty).2.evs =
        [(1, true), (1, false), (0, true)] ∧
      (extract envOK [⟨[], outer6⟩] [] false St.empty).2.evs.count
        (.decodeTry "bad.zip" 1 false) = 1) := by
  constructor
  · intro env fuel depth node od fo st out hmr hdep hfuel hpres hdec hne
    cases fuel with
    | zero => omega
    | succ f =>
      rw [extract_recursive]
      rw [if_neg (by omega : ¬MAX_RECURSION_DEPTH < depth)]
      rw [if_neg (by simp [hpres] : ¬node.present = false)]
      dsimp only
      have hdec' : (fix_extension env.renameOk node).1.dec = some out := by
        rw [fix_extension_dec]; exact hdec
      rw [hdec']
      dsimp only
      rw [if_neg (by simp [hne])]
      exact erMerge_ok (extract_recursive env f (depth + 1)) depth node.name
        (fix_extension env.renameOk node).1.stem _ od _ _ _ hmr
        (fun a i o s => er_ok f env hmr (depth + 1) (by omega) (by omega)
          a i o s)
  · refine ⟨by decide, by decide, by decide, by decide⟩

/-- C6 witness: the general part applied to the concrete
partial-nested-failure archive. -/
theorem claim_C6_witness :
    ∃ st', extract_recursive envOK topFuel 0 outer6 [] none St.empty =
      (.ok true, st') :=
  claim_C6.1 envOK topFuel 0 outer6 [] none St.empty
    [([], goodNest), ([], badNest)] (fun _ _ _ => rfl) (by decide) (by decide)
    rfl rfl rfl

/-- C7: in the batch loop of `extract`, an exception raised while
processing one file is caught in that iteration, logged with the file's
identity, counted as a failure for that file only, and the loop continues
with the next file (first part: the loop-step equation for a raising
file); the returned value counts exactly the files logged as successes
(second part); and a concrete three-file run whose middle file raises
returns 2, with the error line logged for the middle file only and both
good files extracted (third part).  The concrete run uses
`extract_to_source = True` with the three files in three distinct parent
directories, so the temp directory the raising frame leaks
(`b/temp_extract_0`, the C2 bug) is under a different parent than the
next frame's fresh `c/temp_extract_0` and is never re-entered by
`rglob`: the run's enumeration of each temp directory is exactly the
decoder's output. -/
theorem claim_C7 :
    (∀ (env : Env) (od : List String) (ets : Bool) (total : Nat)
        (f : TopFile) (rest : List TopFile) (idx cnt : Nat) (st : St)
        (e : String) (st' : St),
      env.shouldStop = false →
      extract_recursive env topFuel 0 f.node (if ets then f.parent else od)
          none (push st (.processing (idx + 1) total f.node.name)) =
        (.raised e, st') →
      extractLoop env od ets total (f :: rest) idx cnt st =
        extractLoop env od ets total rest (idx + 1) cnt
          (push st' (.errorFile f.node.name e))) ∧
    (∀ (env : Env) (od : List String) (ets : Bool) (total : Nat)
        (files : List TopFile) (idx cnt : Nat) (st : St),
      env.shouldStop = false →
      ∃ d, (extractLoop env od ets total files idx cnt st).2.evs =
          st.evs ++ d ∧
        (extractLoop env od ets total files idx cnt st).1 =
          cnt + countOk d) ∧
    ((extract envBoom
        [⟨["a"], reportA1⟩, ⟨["b"], braiser⟩, ⟨["c"], reportA2⟩] []
        true St.empty).1 = 2 ∧
      (extract envBoom
        [⟨["a"], reportA1⟩, ⟨["b"], braiser⟩, ⟨["c"], reportA2⟩] []
        true St.empty).2.evs.count
          (.errorFile "b.zip" "OSError: shutil.move failed") = 1 ∧
      (extract envBoom
        [⟨["a"], reportA1⟩, ⟨["b"], braiser⟩, ⟨["c"], reportA2⟩] []
        true St.empty).2.evs.count (.okFile "a1.zip") = 1 ∧
      (extract envBoom
        [⟨["a"], reportA1⟩, ⟨["b"], braiser⟩, ⟨["c"], reportA2⟩] []
        true St.empty).2.evs.count (.okFile "a2.zip") = 1 ∧
      (extract envBoom
        [⟨["a"], reportA1⟩, ⟨["b"], braiser⟩, ⟨["c"], reportA2⟩] []
        true St.empty).2.files =
        [(["a"], "report", ".txt", [1, 1, 1, 1]),
          (["c"], "report", ".txt", [2, 2, 2, 2])]) := by
  refine ⟨?_, ?_, by decide, by decide, by decide, by decide, by decide⟩
  · intro env od ets total f rest idx cnt st e st' hstop hER
    rw [extractLoop]
    rw [if_neg (by simp [hstop])]
    dsimp only
    rw [hER]
  · intro env od ets total files
    induction files with
    | nil =>
      intro idx cnt st _
      exact ⟨[], by simp [extractLoop], by simp [extractLoop, countOk]⟩
    | cons f rest ih =>
      intro idx cnt st hstop
      rw [extractLoop]
      rw [if_neg (by simp [hstop])]
      dsimp only
      obtain ⟨dE, hevE, hallE⟩ := er_evExt topFuel env 0 f.node
        (if ets then f.parent else od) none
        (push st (.processing (idx + 1) total f.node.name))
      cases hER : extract_recursive env topFuel 0 f.node
          (if ets then f.parent else od) none
          (push st (.processing (idx + 1) total f.node.name)) with
      | mk r st' =>
        rw [hER] at hevE
        dsimp only at hevE
        cases r with
        | ok b =>
          cases b with
          | true =>
            obtain ⟨dR, hevR, hcntR⟩ := ih (idx + 1) (cnt + 1)
              (push st' (.okFile f.node.name)) hstop
            refine ⟨[.processing (idx + 1) total f.node.name] ++ dE ++
              [.okFile f.node.name] ++ dR, ?_, ?_⟩
            · rw [hevR]
              simp [push, hevE, List.append_assoc]
            · rw [hcntR]
              simp [countOk_cons, countOk_append, countOk_erP hallE,
                isOkFileEv]
              omega
          | false =>
            obtain ⟨dR, hevR, hcntR⟩ := ih (idx + 1) cnt
              (push st' (.failFile f.node.name)) hstop
            refine ⟨[.processing (idx + 1) total f.node.name] ++ dE ++
              [.failFile f.node.name] ++ dR, ?_, ?_⟩
            · rw [hevR]
              simp [push, hevE, List.append_assoc]
            · rw [hcntR]
              simp [countOk_cons, countOk_append, countOk_erP hallE,
                isOkFileEv]
        | raised e =>
          obtain ⟨dR, hevR, hcntR⟩ := ih (idx + 1) cnt
            (push st' (.errorFile f.node.name e)) hstop
          refine ⟨[.processing (idx + 1) total f.node.name] ++ dE ++
            [.errorFile f.node.name e] ++ dR, ?_, ?_⟩
          · rw [hevR]
            simp [push, hevE, List.append_assoc]
          · rw [hcntR]
            simp [countOk_cons, countOk_append, countOk_erP hallE,
              isOkFileEv]

/-- C7 witness: the loop-step equation applied at a concrete raising file,
and the count equation at the concrete three-file scenario. -/
theorem claim_C7_witness :
    (extractLoop envBoom [] false 1 [⟨[], braiser⟩] 0 0 St.empty =
      extractLoop envBoom [] false 1 [] 1 0
        (push (extract_recursive envBoom topFuel 0 braiser [] none
          (push St.empty (.processing 1 1 "b.zip"))).2
          (.errorFile "b.zip" "OSError: shutil.move failed"))) ∧
    ∃ d, (extractLoop envBoom [] false 1 [⟨[], braiser⟩] 0 0
        St.empty).2.evs = d ∧
      (extractLoop envBoom [] false 1 [⟨[], braiser⟩] 0 0 St.empty).1 =
        countOk d := by
  constructor
  · exact claim_C7.1 envBoom [] false 1 ⟨[], braiser⟩ [] 0 0 St.empty
      "OSError: shutil.move failed" _ rfl (by decide)
  · obtain ⟨d, hev, hcnt⟩ := claim_C7.2.1 envBoom [] false 1
      [⟨[], braiser⟩] 0 0 St.empty rfl
    exact ⟨d, by simpa using hev, by simpa using hcnt⟩

/-- C10: every classified entry of a recursion frame is a regular file
because the enumeration of the decoder output keeps only `is_file()`
entries (first part); consequently the directory-collision branch of the
merge step is unreachable — no extraction ever emits a directory-branch
event (second part); and the merge step creates directories in the final
output directory only as parents of the moved files' destinations, so
empty directories produced by the decoder are never moved or recreated
there (third part). -/
theorem claim_C10 :
    (∀ (out : List (List String × VNode)) (p : List String × VNode),
      p ∈ out.filter (fun q => q.2.isFile) → p.2.isFile = true) ∧
    (∀ (env : Env) (fuel depth : Nat) (node : VNode) (od : List String)
        (fo : Option (List String)) (st : St),
      st.evs.all (fun e => !(isDirBranchEv e)) = true →
      (extract_recursive env fuel depth node od fo st).2.evs.all
        (fun e => !(isDirBranchEv e)) = true) ∧
    (∀ (env : Env) (fin : List String) (l : List (List String × VNode)),
      (∀ p ∈ l, (p.2 : VNode).isFile = true) →
      ∀ (st : St) (d : List String), d ∈ (movePhase env fin l st).2.fdirs →
        d ∈ st.fdirs ∨
          ∃ p, p ∈ l ∧ ∃ i, i < p.1.length ∧ d = fin ++ p.1.take (i + 1)) := by
  refine ⟨fun out p hp => (List.mem_filter.mp hp).2, ?_, ?_⟩
  · intro env fuel depth node od fo st hst
    obtain ⟨d, hev, hall⟩ := er_evExt fuel env depth node od fo st
    rw [hev, List.all_append, Bool.and_eq_true]
    refine ⟨hst, ?_⟩
    rw [List.all_eq_true] at hall ⊢
    intro e he
    have h2 := hall e he
    unfold erP at h2
    rw [Bool.and_eq_true] at h2
    exact h2.2
  · intro env fin l hl st d hd
    exact movePhase_fdirs env fin l hl st d hd

/-- C10 witness: a concrete extraction emits no directory-branch event,
and a concrete merge over regular files creates only parent directories
of moved files. -/
theorem claim_C10_witness :
    (extract_recursive envOK topFuel 0 arch1 [] none St.empty).2.evs.all
        (fun e => !(isDirBranchEv e)) = true ∧
      (∀ d, d ∈ (movePhase envOK []
          [(["sub"], .vfile "f" ".txt" [1] true none)] St.empty).2.fdirs →
        d ∈ (St.empty).fdirs ∨
          ∃ p, p ∈ [((["sub"] : List String),
              (.vfile "f" ".txt" [1] true none : VNode))] ∧
            ∃ i, i < p.1.length ∧ d = [] ++ p.1.take (i + 1)) :=
  ⟨claim_C10.2.1 envOK topFuel 0 arch1 [] none St.empty (by decide),
    fun d hd => claim_C10.2.2 envOK []
      [(["sub"], .vfile "f" ".txt" [1] true none)]
      (by intro p hp; simp at hp; rw [hp]; rfl) St.empty d hd⟩

end UnzipSpec
